import Mathlib

/-!
Verification of the skillkit/devskills content server core: a shallow
embedding of the skill/prompt managers (`skillManager.ts`, `promptManager.ts`),
the validators (`validation.ts`) and the git source handling (`gitSource.ts`),
together with theorems settling the specification claims about them.

Modelling conventions:
* File contents are Lean `String`s; all text algorithms used by the code
  (frontmatter regex extraction, `{{identifier}}` scanning, global string
  replacement, trimming) are implemented on `List Char` and exposed on
  `String` via `.data`.
* The filesystem is a record of total functions; `Option` return values model
  the throwing primitives (`readFileSync`, `readdirSync`, `statSync`,
  `yaml.load`): `none` means the call throws.
* `localeCompare`-based sorting and JS default string sorting are both
  modelled by lexicographic `String` order, and `Array.prototype.sort` by a
  stable insertion sort.
* JS string lengths are modelled as codepoint counts (surrogate pairs are not
  modelled); in the substitution operation the pattern built from a key is
  matched literally and the replacement text inserted literally (keys holding
  regex metacharacters and `$` escapes in values are outside the model).
-/

namespace DevSkills

/-! ## Generic list/string utilities -/

/-- Path join as used by `node:path` `join(a, b)` for plain relative segments. -/
def pjoin (a b : String) : String := a ++ "/" ++ b

/-- `pre.isPrefixOf s` on the underlying character lists. -/
def strStartsWith (s pre : String) : Bool := pre.data.isPrefixOf s.data

/-- suffix test on the underlying character lists. -/
def strEndsWith (s suf : String) : Bool := suf.data.isSuffixOf s.data

/-- Lexicographic code-point comparison of character lists (the model of both
`localeCompare`-based sorting and JS default string sort order). -/
def charListLe : List Char → List Char → Bool
  | [], _ => true
  | _ :: _, [] => false
  | a :: as, b :: bs =>
    if a.toNat < b.toNat then true
    else if b.toNat < a.toNat then false
    else charListLe as bs

/-- String comparison via `charListLe`. -/
def strLe (a b : String) : Bool := charListLe a.data b.data

/-- Whether `pat` occurs as a contiguous substring of `s` (character lists). -/
def containsSub (pat : List Char) : List Char → Bool
  | [] => pat.isEmpty
  | c :: cs => pat.isPrefixOf (c :: cs) || containsSub pat cs

/-- Index of the first occurrence of `pat` in `s`, if any. -/
def findSub (pat : List Char) : List Char → Option Nat
  | [] => if pat.isEmpty then some 0 else none
  | c :: cs =>
    if pat.isPrefixOf (c :: cs) then some 0
    else (findSub pat cs).map (· + 1)

/-- JS regex `\w` character class (over ASCII, which is all the code relies on). -/
def isWordChar (c : Char) : Bool :=
  (('a' ≤ c && c ≤ 'z') || ('A' ≤ c && c ≤ 'Z') || ('0' ≤ c && c ≤ '9') || c = '_')

/-- JS whitespace for `String.prototype.trim` (the characters the sources use). -/
def isJsWs (c : Char) : Bool :=
  c = ' ' || c = '\n' || c = '\t' || c = '\r'

/-- `String.prototype.trim`. -/
def jsTrim (s : List Char) : List Char :=
  ((s.dropWhile isJsWs).reverse.dropWhile isJsWs).reverse

/-- Worker of `dedupFirst`: skip elements already seen. -/
def dedupFirstAux (seen : List String) : List String → List String
  | [] => []
  | x :: xs =>
    if seen.contains x then dedupFirstAux seen xs
    else x :: dedupFirstAux (x :: seen) xs

/-- Keep the first occurrence of each element (JS `Set` insertion order). -/
def dedupFirst (l : List String) : List String := dedupFirstAux [] l

/-- `Array.prototype.join(", ")`. -/
def joinComma : List String → String
  | [] => ""
  | [x] => x
  | x :: xs => x ++ ", " ++ joinComma xs

/-! ### Stable insertion sort, modelling `Array.prototype.sort` -/

/-- Insert `x` before the first element it compares `le` to (stable). -/
def insertBy (le : α → α → Bool) (x : α) : List α → List α
  | [] => [x]
  | y :: ys => if le x y then x :: y :: ys else y :: insertBy le x ys

/-- Stable sort by the boolean relation `le`. -/
def sortBy (le : α → α → Bool) (l : List α) : List α :=
  l.foldr (insertBy le) []

/-! ## YAML value model

`yaml.load` returns an arbitrary JS value; we model the values that YAML can
produce. Objects are association lists (keys assumed unique, as in JS objects).
-/

inductive YamlVal where
  | vStr (s : String)
  | vNum (n : Int)
  | vBool (b : Bool)
  | vNull
  | vObj (entries : List (String × YamlVal))
  | vArr (items : List YamlVal)

/-- JS property lookup `obj[k]` on an object modelled as an entry list
(`none` models `undefined`). -/
def jget (es : List (String × YamlVal)) (k : String) : Option YamlVal :=
  (es.find? (fun p => p.1 = k)).map (·.2)

/-- Casting an arbitrary value to `Record<string, unknown>` for property
access: only real objects expose the string keys the code reads. -/
def toRecord : YamlVal → List (String × YamlVal)
  | .vObj es => es
  | _ => []

/-- JS falsiness of a value (`!v`). -/
def jsFalsy : YamlVal → Bool
  | .vNull => true
  | .vBool b => !b
  | .vNum n => n = 0
  | .vStr s => s = ""
  | _ => false

/-- JS string coercion `String(v)` / template interpolation, for the scalar
values the code actually interpolates. -/
def jsToString : YamlVal → String
  | .vStr s => s
  | .vNum n => toString n
  | .vBool b => if b then "true" else "false"
  | .vNull => "null"
  | .vObj _ => "[object Object]"
  | .vArr _ => ""

/-- `(v as string) ?? fallback`: nullish coalescing after a (no-op) string
cast.  A present non-null, non-string value is carried as its display string
(the TS code would carry the raw value under a string type annotation). -/
def nullishStr (v : Option YamlVal) (fallback : String) : String :=
  match v with
  | none => fallback
  | some .vNull => fallback
  | some v => jsToString v

/-! ## Filesystem model -/

/-- What `statSync` reports for an existing path. -/
inductive FKind where
  | dir
  | file
deriving DecidableEq

/-- The filesystem and YAML environment the managers run against.
`none` results model throwing calls. -/
structure FS where
  stat : String → Option FKind
  readdir : String → Option (List String)
  readFile : String → Option String
  yamlLoad : String → Option YamlVal

/-- `existsSync` (never throws). -/
def FS.existsSync (fs : FS) (p : String) : Bool := (fs.stat p).isSome

/-- `statSync(p).isDirectory()` at call sites guarded by `existsSync`. -/
def FS.isDir (fs : FS) (p : String) : Bool := fs.stat p = some .dir

/-- `statSync(p).isFile()` at call sites guarded by `existsSync`. -/
def FS.isFile (fs : FS) (p : String) : Bool := fs.stat p = some .file

/-- Stand-in text for the runtime's own I/O error message when an unguarded
`readFileSync` throws. -/
def ioErrorMsg (p : String) : String := "EIO: error reading " ++ p

/-! ## Frontmatter extraction (`parseFrontmatter` / `extractBody`)

The sources match ``^---\n([\s\S]*?)\n---``: the content must begin with
`---` + newline, and the (lazy) capture is the shortest prefix of the rest
followed by newline + `---`.
-/

/-- The capture of ``^---\n([\s\S]*?)\n---``, if the regex matches. -/
def fmMatch (content : List Char) : Option (List Char) :=
  if ("---\n".data).isPrefixOf content then
    let rest := content.drop 4
    (findSub "\n---".data rest).map (fun i => rest.take i)
  else none

/-- `parseFrontmatter`: extract the frontmatter block and parse it; degrade to
the empty record when the regex does not match, YAML parsing throws, or the
parse yields `null` or a non-object. -/
def parseFrontmatter (yload : String → Option YamlVal) (content : String) :
    List (String × YamlVal) :=
  match fmMatch content.data with
  | none => []
  | some block =>
    match yload (String.mk block) with
    | none => []
    | some v => toRecord v

/-- `extractBody`: regex ``^---\n[\s\S]*?\n---\n?([\s\S]*)`` — everything after
the closing delimiter (and one optional newline), trimmed; or the whole
content trimmed when there is no frontmatter. -/
def extractBody (content : String) : String :=
  match fmMatch content.data with
  | none => String.mk (jsTrim content.data)
  | some block =>
    let after := content.data.drop (4 + block.length + 4)
    let after := match after with
      | '\n' :: t => t
      | t => t
    String.mk (jsTrim after)

/-! ## JS `Map` on string keys, as an insertion-ordered association list -/

/-- `Map.prototype.set`: update in place when the key exists (keeping its
original position), else append. -/
def mapSet (m : List (String × String)) (k v : String) : List (String × String) :=
  if m.any (fun p => p.1 = k) then m.map (fun p => if p.1 = k then (k, v) else p)
  else m ++ [(k, v)]

/-- `Map.prototype.get`. -/
def mapLookup (m : List (String × String)) (k : String) : Option String :=
  (m.find? (fun p => p.1 = k)).map (·.2)

/-- `[...m.keys()]`. -/
def mapKeys (m : List (String × String)) : List String := m.map (·.1)

/-! ## SkillManager (`skillManager.ts`) -/

/-- Entry of `SkillManager.listAll()`. -/
structure SkillInfo where
  name : String
  description : String
deriving DecidableEq

/-- The inner loop of `discoverSkills` over the entries of one root's
`skills/` directory.  A `statSync` throw (`stat = none`) aborts the loop for
this root via the surrounding `try`, keeping what was already inserted. -/
def processSkillItems (fs : FS) (skillsDir : String)
    (m : List (String × String)) : List String → List (String × String)
  | [] => m
  | item :: rest =>
    if strStartsWith item "_" then processSkillItems fs skillsDir m rest
    else
      let itemPath := pjoin skillsDir item
      match fs.stat itemPath with
      | none => m
      | some k =>
        if k = FKind.dir then
          let skillFile := pjoin itemPath "SKILL.md"
          if fs.existsSync skillFile then
            processSkillItems fs skillsDir (mapSet m item itemPath) rest
          else processSkillItems fs skillsDir m rest
        else processSkillItems fs skillsDir m rest

/-- One iteration of `discoverSkills` over a root path. -/
def processSkillRoot (fs : FS) (m : List (String × String)) (repoPath : String) :
    List (String × String) :=
  if fs.existsSync repoPath then
    let skillsDir := pjoin repoPath "skills"
    if fs.existsSync skillsDir && fs.isDir skillsDir then
      match fs.readdir skillsDir with
      | none => m
      | some items => processSkillItems fs skillsDir m items
    else m
  else m

/-- `SkillManager.discoverSkills`: process roots in reverse order so that
earlier (higher-priority) roots override later ones. -/
def discoverSkills (fs : FS) (skillPaths : List String) : List (String × String) :=
  skillPaths.reverse.foldl (processSkillRoot fs) []

/-- Key order used by `listAll` (`a.localeCompare(b)`, modelled as
lexicographic string order). -/
def entryLe (a b : String × String) : Bool := strLe a.1 b.1

/-- `[...skills.entries()].sort(([a], [b]) => a.localeCompare(b))`. -/
def sortedEntries (m : List (String × String)) : List (String × String) :=
  sortBy entryLe m

/-- The body of `SkillManager.listAll`'s loop for one `(name, skillPath)`
entry: read and parse `SKILL.md`, degrading to the index key and a
placeholder description. -/
def renderSkillEntry (fs : FS) (e : String × String) : SkillInfo :=
  match fs.readFile (pjoin e.2 "SKILL.md") with
  | none => { name := e.1, description := "Unable to read skill description" }
  | some content =>
    let fm := parseFrontmatter fs.yamlLoad content
    { name := nullishStr (jget fm "name") e.1
      description := nullishStr (jget fm "description") "No description available" }

/-- `SkillManager.listAll`. -/
def skillsListAll (fs : FS) (skillPaths : List String) : List SkillInfo :=
  (sortedEntries (discoverSkills fs skillPaths)).map (renderSkillEntry fs)

/-- The `NotFound` message of the skill accessors. -/
def skillNotFoundMsg (m : List (String × String)) (name : String) : String :=
  "Skill '" ++ name ++ "' not found. Available skills: " ++
    joinComma (sortBy strLe (mapKeys m))

/-- The message enumerating the sibling files of a missing script/reference. -/
def subdirEnumMsg (what wp skill filename : String) (avail : List String) : String :=
  what ++ " '" ++ filename ++ "' not found in skill '" ++ skill ++
    "'. Available " ++ wp ++ ": " ++ joinComma avail

/-- The message claiming the scripts/references subdirectory does not exist. -/
def subdirMissingMsg (what wp skill filename : String) : String :=
  what ++ " '" ++ filename ++ "' not found in skill '" ++ skill ++
    "'. No " ++ wp ++ " directory exists for this skill."

/-- `SkillManager.getContent`. -/
def getContent (fs : FS) (skillPaths : List String) (name : String) :
    Except String String :=
  let skills := discoverSkills fs skillPaths
  match mapLookup skills name with
  | none => .error (skillNotFoundMsg skills name)
  | some skillPath =>
    match fs.readFile (pjoin skillPath "SKILL.md") with
    | some content => .ok content
    | none =>
      .error ("Error reading skill '" ++ name ++ "': " ++
        ioErrorMsg (pjoin skillPath "SKILL.md"))

/-- Shared implementation of `getScript` and `getReference`: `sub` is the
subdirectory (`scripts` or `references`), `what`/`whatPlural` the words used
in the messages (`Script`/`scripts`, `Reference`/`references`). -/
def getFromSubdir (fs : FS) (skillPaths : List String)
    (sub what whatPlural : String) (skill filename : String) :
    Except String String :=
  let skills := discoverSkills fs skillPaths
  match mapLookup skills skill with
  | none => .error (skillNotFoundMsg skills skill)
  | some skillPath =>
    let filePath := pjoin (pjoin skillPath sub) filename
    if fs.existsSync filePath then
      match fs.readFile filePath with
      | some content => .ok content
      | none =>
        .error ("Error reading " ++ whatPlural.dropRight 1 ++ " '" ++ filename ++
          "' from skill '" ++ skill ++ "': " ++ ioErrorMsg filePath)
    else
      let subDir := pjoin skillPath sub
      let enumerated : Option String :=
        if fs.existsSync subDir && fs.isDir subDir then
          match fs.readdir subDir with
          | none => none
          | some files =>
            let avail := files.filter (fun f =>
              fs.existsSync (pjoin subDir f) && fs.isFile (pjoin subDir f))
            if avail.length > 0 then
              some (subdirEnumMsg what whatPlural skill filename avail)
            else none
        else none
      match enumerated with
      | some msg => .error msg
      | none => .error (subdirMissingMsg what whatPlural skill filename)

/-- `SkillManager.getScript`. -/
def getScript (fs : FS) (skillPaths : List String) (skill filename : String) :
    Except String String :=
  getFromSubdir fs skillPaths "scripts" "Script" "scripts" skill filename

/-- `SkillManager.getReference`. -/
def getReference (fs : FS) (skillPaths : List String) (skill filename : String) :
    Except String String :=
  getFromSubdir fs skillPaths "references" "Reference" "references" skill filename

/-! ## Placeholder scanning and substitution -/

/-- Worker of `scanPlaceholders`; `fuel` is a termination artifact (each step
consumes at least one character, so `fuel = cs.length` never runs out). -/
def scanAux : Nat → List Char → List String
  | 0, _ => []
  | fuel + 1, cs =>
    match cs with
    | c :: c2 :: rest =>
      if c = '{' && c2 = '{' then
        let w := rest.takeWhile isWordChar
        if w.length > 0 && ("\x7d\x7d".data).isPrefixOf (rest.drop w.length) then
          String.mk w :: scanAux fuel ((rest.drop w.length).drop 2)
        else
          scanAux fuel (c2 :: rest)
      else scanAux fuel (c2 :: rest)
    | _ => []

/-- The matches of `matchAll` with regex `\{\{(\w+)\}\}` (in order, with
repeats): at each position, two braces, a maximal nonempty word-character run,
two closing braces; a failed attempt restarts one character later. -/
def scanPlaceholders (cs : List Char) : List String := scanAux cs.length cs

/-- Worker of `replaceAll`; `fuel` is a termination artifact (each step
consumes at least one character, so `fuel = s.length` never runs out). -/
def replaceAllAux (pat rep : List Char) : Nat → List Char → List Char
  | 0, s => s
  | fuel + 1, s =>
    match s with
    | [] => []
    | c :: cs =>
      if pat.length > 0 && pat.isPrefixOf (c :: cs) then
        rep ++ replaceAllAux pat rep fuel ((c :: cs).drop pat.length)
      else
        c :: replaceAllAux pat rep fuel cs

/-- One global-regex replacement pass `s.replace(new RegExp(pat, "g"), rep)`
for a literal pattern: scan left to right, replace each (leftmost,
non-overlapping) occurrence. -/
def replaceAll (pat rep s : List Char) : List Char :=
  replaceAllAux pat rep s.length s

/-- `PromptManager.getBodyWithArgs`'s loop over `Object.entries(args)`:
replace every `\{\{key\}\}` occurrence by the (stringified) value.
Replacement text is taken literally (no `$` escapes modelled). -/
def substitute (body : String) (args : List (String × String)) : String :=
  String.mk (args.foldl
    (fun b kv => replaceAll ("\x7b\x7b" ++ kv.1 ++ "\x7d\x7d").data kv.2.data b) body.data)

/-! ## PromptManager (`promptManager.ts`) -/

/-- `item.slice(0, -3)`: strip the `.md` suffix. -/
def stemOf (item : String) : String :=
  String.mk (item.data.take (item.data.length - 3))

/-- The inner loop of `discoverPrompts` over one prompts directory's entries;
a `statSync` throw aborts the loop for this directory via the `try`. -/
def processPromptItems (fs : FS) (promptsDir : String)
    (m : List (String × String)) : List String → List (String × String)
  | [] => m
  | item :: rest =>
    if strEndsWith item ".md" then
      let itemPath := pjoin promptsDir item
      match fs.stat itemPath with
      | none => m
      | some k =>
        if k = FKind.file then
          processPromptItems fs promptsDir (mapSet m (stemOf item) itemPath) rest
        else processPromptItems fs promptsDir m rest
    else processPromptItems fs promptsDir m rest

/-- One iteration of `discoverPrompts` over a prompts directory. -/
def processPromptRoot (fs : FS) (m : List (String × String)) (promptsDir : String) :
    List (String × String) :=
  if fs.existsSync promptsDir then
    match fs.readdir promptsDir with
    | none => m
    | some items => processPromptItems fs promptsDir m items
  else m

/-- `PromptManager.discoverPrompts` over the already-constructed
`promptPaths` list (each entry is a `prompts/` directory). -/
def discoverPrompts (fs : FS) (promptPaths : List String) : List (String × String) :=
  promptPaths.reverse.foldl (processPromptRoot fs) []

/-- The `NotFound` message of the prompt accessors. -/
def promptNotFoundMsg (m : List (String × String)) (name : String) : String :=
  "Prompt '" ++ name ++ "' not found. Available: " ++
    joinComma (sortBy strLe (mapKeys m))

/-- `PromptManager.getBody`. -/
def getBody (fs : FS) (promptPaths : List String) (name : String) :
    Except String String :=
  let prompts := discoverPrompts fs promptPaths
  match mapLookup prompts name with
  | none => .error (promptNotFoundMsg prompts name)
  | some promptPath =>
    match fs.readFile promptPath with
    | none => .error (ioErrorMsg promptPath)
    | some content => .ok (extractBody content)

/-- `PromptManager.getTemplateVariables`: unique `{{var}}` names of the body,
in first-occurrence order. -/
def getTemplateVariables (fs : FS) (promptPaths : List String) (name : String) :
    Except String (List String) :=
  (getBody fs promptPaths name).map (fun body => dedupFirst (scanPlaceholders body.data))

/-- `z.enum(["string", "number", "boolean"])` of `PromptArgumentSchema.type`. -/
inductive ArgType where
  | tString
  | tNumber
  | tBoolean
deriving DecidableEq

/-- `z.union([z.string(), z.number(), z.boolean()])` of
`PromptArgumentSchema.default`. -/
inductive DefaultVal where
  | dStr (s : String)
  | dNum (n : Int)
  | dBool (b : Bool)
deriving DecidableEq

/-- One parsed prompt argument declaration (`PromptArgumentSchema`). -/
structure PromptArgument where
  type : Option ArgType := none
  description : Option String := none
  default : Option DefaultVal := none
deriving DecidableEq

/-- The empty argument specification `{}` assigned to auto-discovered body
variables. -/
def emptyArg : PromptArgument := {}

/-- `PromptArgumentSchema.safeParse` on one declaration: a plain object whose
optional fields conform (`z.object` strips unknown keys; `optional()` accepts
absence only, not `null`). -/
def parseArgDef : YamlVal → Option PromptArgument
  | .vObj es => do
    let ty ← match jget es "type" with
      | none => some none
      | some (.vStr "string") => some (some ArgType.tString)
      | some (.vStr "number") => some (some ArgType.tNumber)
      | some (.vStr "boolean") => some (some ArgType.tBoolean)
      | some _ => none
    let desc ← match jget es "description" with
      | none => some none
      | some (.vStr s) => some (some s)
      | some _ => none
    let dflt ← match jget es "default" with
      | none => some none
      | some (.vStr s) => some (some (DefaultVal.dStr s))
      | some (.vNum n) => some (some (DefaultVal.dNum n))
      | some (.vBool b) => some (some (DefaultVal.dBool b))
      | some _ => none
    some { type := ty, description := desc, default := dflt }
  | _ => none

/-- `PromptArgumentsSchema.safeParse`: a record of argument declarations;
any nonconforming entry fails the whole parse. -/
def parsePromptArguments : YamlVal → Option (List (String × PromptArgument))
  | .vObj es => es.mapM (fun p => (parseArgDef p.2).map (fun a => (p.1, a)))
  | _ => none

/-- `PromptManager.getArguments`: the frontmatter `arguments` entry, parsed;
a falsy entry or a failed schema parse degrades to the empty record. -/
def getArguments (fs : FS) (promptPaths : List String) (name : String) :
    Except String (List (String × PromptArgument)) :=
  let prompts := discoverPrompts fs promptPaths
  match mapLookup prompts name with
  | none => .error (promptNotFoundMsg prompts name)
  | some promptPath =>
    match fs.readFile promptPath with
    | none => .error (ioErrorMsg promptPath)
    | some content =>
      let fm := parseFrontmatter fs.yamlLoad content
      match jget fm "arguments" with
      | none => .ok []
      | some v =>
        if jsFalsy v then .ok []
        else
          match parsePromptArguments v with
          | none => .ok []
          | some parsed => .ok parsed

/-- The merge loop of `getMergedArguments`: body variables not already
declared are appended with the empty specification. -/
def mergeArgs (declared : List (String × PromptArgument)) (vars : List String) :
    List (String × PromptArgument) :=
  vars.foldl
    (fun merged v =>
      if merged.any (fun p => p.1 = v) then merged else merged ++ [(v, emptyArg)])
    declared

/-- `PromptManager.getMergedArguments`. -/
def getMergedArguments (fs : FS) (promptPaths : List String) (name : String) :
    Except String (List (String × PromptArgument)) := do
  let declared ← getArguments fs promptPaths name
  let vars ← getTemplateVariables fs promptPaths name
  return mergeArgs declared vars

/-- Entry of `PromptManager.listAll()` (`arguments = none` models the omitted
field). -/
structure PromptInfo where
  name : String
  description : String
  arguments : Option (List (String × PromptArgument))
deriving DecidableEq

/-- The body of `PromptManager.listAll`'s loop for one `(name, path)` entry:
`none` models the `catch` that skips prompts whose processing throws. -/
def renderPromptEntry (fs : FS) (promptPaths : List String) (e : String × String) :
    Option PromptInfo :=
  match fs.readFile e.2 with
  | none => none
  | some content =>
    let fm := parseFrontmatter fs.yamlLoad content
    let promptName := nullishStr (jget fm "name") e.1
    match getMergedArguments fs promptPaths promptName with
    | .error _ => none
    | .ok merged =>
      some { name := promptName
             description := nullishStr (jget fm "description") ""
             arguments := if merged.length > 0 then some merged else none }

/-- `PromptManager.listAll`. -/
def promptsListAll (fs : FS) (promptPaths : List String) : List PromptInfo :=
  (sortedEntries (discoverPrompts fs promptPaths)).filterMap
    (renderPromptEntry fs promptPaths)

/-- `PromptManager.getBodyWithArgs`. -/
def getBodyWithArgs (fs : FS) (promptPaths : List String) (name : String)
    (args : List (String × String)) : Except String String :=
  (getBody fs promptPaths name).map (fun b => substitute b args)

/-! ## Validation (`validation.ts`) -/

/-- Result of `validateSkill` (`errors = none` models the omitted field). -/
structure ValidationResult where
  valid : Bool
  message : String
  errors : Option (List String)
deriving DecidableEq

/-- Result of `validatePrompt`. -/
structure PromptValidationResult where
  valid : Bool
  errors : List String
  warnings : List String
deriving DecidableEq

/-- `ALLOWED_PROPERTIES`. -/
def ALLOWED_PROPERTIES : List String := ["name", "description", "license"]

/-- `MAX_NAME_LENGTH`. -/
def MAX_NAME_LENGTH : Nat := 64

/-- `MAX_DESCRIPTION_LENGTH`. -/
def MAX_DESCRIPTION_LENGTH : Nat := 1024

/-- `errors.join("; ")`. -/
def joinSemi : List String → String
  | [] => ""
  | [x] => x
  | x :: xs => x ++ "; " ++ joinSemi xs

/-- JS `typeof`, over the modelled YAML values. -/
def jsTypeof : YamlVal → String
  | .vStr _ => "string"
  | .vNum _ => "number"
  | .vBool _ => "boolean"
  | .vNull => "object"
  | .vObj _ => "object"
  | .vArr _ => "object"

/-- Stand-in text for `e.message` of a YAML parse exception. -/
def yamlErrorMsg : String := "YAMLException: bad frontmatter"

/-- The regex class `[a-z0-9-]` of the hyphen-case name check. -/
def hyphenCaseChar (c : Char) : Bool :=
  ('a' ≤ c && c ≤ 'z') || ('0' ≤ c && c ≤ '9') || c = '-'

/-- A single-error invalid `validateSkill` result. -/
def invalidResult (msg : String) : ValidationResult :=
  { valid := false, message := msg, errors := some [msg] }

/-- The name content checks of `validateSkill` (run only on a nonempty
trimmed name), accumulated in source order. -/
def nameContentErrors (trimmedName : List Char) : List String :=
  (if !trimmedName.all hyphenCaseChar then
    ["Name '" ++ String.mk trimmedName ++
      "' should be hyphen-case (lowercase letters, digits, and hyphens only)"]
   else []) ++
  (if ("-".data).isPrefixOf trimmedName || ("-".data).isSuffixOf trimmedName ||
      containsSub "--".data trimmedName then
    ["Name '" ++ String.mk trimmedName ++
      "' cannot start/end with hyphen or contain consecutive hyphens"]
   else []) ++
  (if trimmedName.length > MAX_NAME_LENGTH then
    ["Name is too long (" ++ toString trimmedName.length ++
      " characters). Maximum is " ++ toString MAX_NAME_LENGTH ++ " characters."]
   else [])

/-- The description content checks of `validateSkill` (run only on a nonempty
trimmed description). -/
def descContentErrors (trimmedDescription : List Char) : List String :=
  (if containsSub "<".data trimmedDescription ||
      containsSub ">".data trimmedDescription then
    ["Description cannot contain angle brackets (< or >)"]
   else []) ++
  (if trimmedDescription.length > MAX_DESCRIPTION_LENGTH then
    ["Description is too long (" ++ toString trimmedDescription.length ++
      " characters). Maximum is " ++ toString MAX_DESCRIPTION_LENGTH ++ " characters."]
   else [])

/-- `validateSkill` applied to the content of an existing, readable
`SKILL.md`. -/
def validateSkillContent (yload : String → Option YamlVal) (content : String) :
    ValidationResult :=
  if !strStartsWith content "---" then invalidResult "No YAML frontmatter found"
  else
    match fmMatch content.data with
    | none => invalidResult "Invalid frontmatter format"
    | some block =>
      match yload (String.mk block) with
      | none => invalidResult ("Invalid YAML in frontmatter: " ++ yamlErrorMsg)
      | some parsed =>
        match parsed with
        | .vObj fm =>
          let unexpected := (fm.map (·.1)).filter
            (fun k => !ALLOWED_PROPERTIES.contains k)
          if unexpected.length > 0 then
            invalidResult ("Unexpected key(s) in SKILL.md frontmatter: " ++
              joinComma (sortBy strLe unexpected) ++
              ". Allowed properties are: " ++
              joinComma (sortBy strLe ALLOWED_PROPERTIES))
          else
            let missing :=
              (if !fm.any (fun p => p.1 = "name") then
                ["Missing 'name' in frontmatter"] else []) ++
              (if !fm.any (fun p => p.1 = "description") then
                ["Missing 'description' in frontmatter"] else [])
            if missing.length > 0 then
              { valid := false, message := joinSemi missing, errors := some missing }
            else
              match jget fm "name" with
              | none => invalidResult "Name must be a string, got undefined"
              | some nameV =>
                match nameV with
                | .vStr name =>
                  let nameErrs :=
                    if (jsTrim name.data).length > 0 then
                      nameContentErrors (jsTrim name.data)
                    else []
                  match jget fm "description" with
                  | none => invalidResult "Description must be a string, got undefined"
                  | some descV =>
                    match descV with
                    | .vStr description =>
                      let errs := nameErrs ++
                        (if (jsTrim description.data).length > 0 then
                          descContentErrors (jsTrim description.data)
                        else [])
                      if errs.length > 0 then
                        { valid := false, message := joinSemi errs, errors := some errs }
                      else
                        { valid := true, message := "Skill is valid!", errors := none }
                    | v =>
                      invalidResult ("Description must be a string, got " ++ jsTypeof v)
                | v => invalidResult ("Name must be a string, got " ++ jsTypeof v)
        | _ => invalidResult "Frontmatter must be a YAML dictionary"

/-- `validateSkill(skillPath)`. -/
def validateSkill (fs : FS) (skillPath : String) : ValidationResult :=
  let skillMdPath := pjoin skillPath "SKILL.md"
  if !fs.existsSync skillMdPath then invalidResult "SKILL.md not found"
  else
    match fs.readFile skillMdPath with
    | none => invalidResult ("Error reading SKILL.md: " ++ ioErrorMsg skillMdPath)
    | some content => validateSkillContent fs.yamlLoad content

/-- One row of the `levenshteinDistance` matrix: walking `a` with previous-row
values `d :: u :: more` and the entry `left` just computed. -/
def levAux (bc : Char) : List Char → List Nat → Nat → List Nat
  | ac :: rest, d :: u :: more, left =>
    let v := if bc = ac then d else Nat.min (Nat.min (d + 1) (left + 1)) (u + 1)
    v :: levAux bc rest (u :: more) v
  | _, _, _ => []

/-- `levenshteinDistance(a, b)`: the dynamic program of the source, row by
row over `b`. -/
def levenshteinDistance (a b : String) : Nat :=
  let la := a.data
  let row0 := List.range (la.length + 1)
  let final :=
    (b.data.foldl
      (fun (st : List Nat × Nat) bc =>
        let i := st.2 + 1
        (i :: levAux bc la st.1 i, i))
      (row0, 0)).1
  final.getLastD 0

/-- `findSimilar`: the first candidate within edit distance 1..2. -/
def findSimilar (name : String) (candidates : List String) : Option String :=
  candidates.find? (fun c =>
    let d := levenshteinDistance name c
    decide (d ≤ 2) && decide (d > 0))

/-- The entries the first `validatePrompt` loop iterates:
`Object.entries(frontmatter.arguments)` when that value is truthy and of
object type (YAML objects never carry duplicate keys, so the `Map` rebuild is
the identity on keys). -/
def vpDefinedArgs (fm : List (String × YamlVal)) : List (String × YamlVal) :=
  match jget fm "arguments" with
  | none => []
  | some v =>
    if jsFalsy v then []
    else
      match v with
      | .vObj es => es
      | .vArr items => items.enum.map (fun p => (toString p.1, p.2))
      | _ => []

/-- Falsiness of a property access result (`!def.description`). -/
def jsFalsyOpt : Option YamlVal → Bool
  | none => true
  | some v => jsFalsy v

/-- `validTypes.includes(def.type)`: only the literal strings `string`,
`number`, `boolean` pass. -/
def validTypeVal : YamlVal → Bool
  | .vStr s => s = "string" || s = "number" || s = "boolean"
  | _ => false

/-- The type error one declared argument contributes, if any. -/
def typeErrorOf (p : String × YamlVal) : Option String :=
  match jget (toRecord p.2) "type" with
  | none => none
  | some t =>
    if validTypeVal t then none
    else some ("Invalid type '" ++ jsToString t ++ "'. Use: string, number, boolean.")

/-- The missing-description warning one declared argument contributes, if any. -/
def descWarningOf (p : String × YamlVal) : Option String :=
  if jsFalsyOpt (jget (toRecord p.2) "description") then
    some ("Argument '" ++ p.1 ++ "' has no description.")
  else none

/-- The undefined-variable error message for one body variable. -/
def undefinedVarMsg (keys : List String) (v : String) : String :=
  match findSimilar v keys with
  | some s => "Undefined variable '" ++ v ++ "'. Did you mean '" ++ s ++ "'?"
  | none => "Undefined variable '" ++ v ++ "'. Add to arguments or fix typo."

/-- The undefined-variable errors, in body-variable order. -/
def undefinedVarErrors (vars keys : List String) : List String :=
  (vars.filter (fun v => !keys.contains v)).map (undefinedVarMsg keys)

/-- The unused-argument warning message. -/
def unusedArgMsg (k : String) : String :=
  "Argument '" ++ k ++ "' defined but never used."

/-- The unused-argument warnings, in declaration order. -/
def unusedArgWarnings (keys vars : List String) : List String :=
  (keys.filter (fun k => !vars.contains k)).map unusedArgMsg

/-- `validatePrompt` applied to the content of an existing, readable prompt
file. -/
def validatePromptContent (yload : String → Option YamlVal) (content : String) :
    PromptValidationResult :=
  let fm := parseFrontmatter yload content
  let body := extractBody content
  let defs := vpDefinedArgs fm
  let keys := defs.map (·.1)
  let vars := dedupFirst (scanPlaceholders body.data)
  let errors := defs.filterMap typeErrorOf ++ undefinedVarErrors vars keys
  let warnings := defs.filterMap descWarningOf ++ unusedArgWarnings keys vars
  { valid := errors.length = 0, errors := errors, warnings := warnings }

/-- `validatePrompt(promptPath)`. -/
def validatePrompt (fs : FS) (promptPath : String) : PromptValidationResult :=
  if !fs.existsSync promptPath then
    { valid := false, errors := ["Prompt file not found: " ++ promptPath], warnings := [] }
  else
    match fs.readFile promptPath with
    | none =>
      { valid := false, errors := ["Error reading prompt: " ++ ioErrorMsg promptPath],
        warnings := [] }
    | some content => validatePromptContent fs.yamlLoad content

/-! ## Git source handling (`gitSource.ts`) -/

/-- `parseGitUrl`'s result. -/
structure ParsedGitUrl where
  url : String
  ref : Option String
deriving DecidableEq

/-- `parseGitUrl`: split at the first `#`. -/
def parseGitUrl (source : String) : ParsedGitUrl :=
  match findSub ['#'] source.data with
  | none => { url := source, ref := none }
  | some i =>
    { url := String.mk (source.data.take i)
      ref := some (String.mk (source.data.drop (i + 1))) }

/-- `isGitUrl`. -/
def isGitUrl (source : String) : Bool :=
  if strStartsWith source "git@" then true
  else if strStartsWith source "https://" then
    let urlPart := match findSub ['#'] source.data with
      | none => source.data
      | some i => source.data.take i
    strEndsWith (String.mk urlPart) ".git"
  else false

/-- `getCacheDir`, with the SHA-256 hex digest abstracted as `hash`. -/
def getCacheDir (hash : String → String) (home url ref : String) : String :=
  let cacheKey := url ++ "#" ++ ref
  pjoin (pjoin (pjoin home "cache") "repos") (String.mk ((hash cacheKey).data.take 12))

/-- The external version-control invocations `cloneOrUpdate` makes, in order. -/
inductive GitCmd where
  | version
  | fetchAll (dir : String)
  | checkout (dir ref : String)
  | pullFFOnly (dir : String)
  | clone (url dir : String)
deriving DecidableEq

/-- The command trace of `cloneOrUpdate(url, ref)`: check git, then either
fetch + checkout + tolerated pull (existing cache) or clone + checkout
(fresh cache). -/
def cloneOrUpdateCommands (hash : String → String) (home url ref : String)
    (isExisting : Bool) : List GitCmd :=
  let cacheDir := getCacheDir hash home url ref
  GitCmd.version ::
    (if isExisting then
      [GitCmd.fetchAll cacheDir, GitCmd.checkout cacheDir ref, GitCmd.pullFFOnly cacheDir]
    else
      [GitCmd.clone url cacheDir, GitCmd.checkout cacheDir ref])

/-- The ref strings a command trace passes to `git checkout`. -/
def checkoutRefs (cmds : List GitCmd) : List String :=
  cmds.filterMap (fun c => match c with
    | .checkout _ r => some r
    | _ => none)

/-! ## Claim-support definitions -/

/-- The canonical location of skill `n` under root `r`. -/
def skillLocOf (r n : String) : String := pjoin (pjoin r "skills") n

/-- Whether the scan of one skills directory listing `items` indexes skill
`n`: listed, not underscore-prefixed, a directory, holding a `SKILL.md`. -/
def skillItemHit (fs : FS) (skillsDir n : String) (items : List String) : Bool :=
  items.contains n && !strStartsWith n "_" &&
    (fs.stat (pjoin skillsDir n) = some FKind.dir) &&
    fs.existsSync (pjoin (pjoin skillsDir n) "SKILL.md")

/-- Whether root `r` defines skill `n`: the root and its `skills/` directory
exist, and the directory listing indexes `n`. -/
def skillRootDefines (fs : FS) (r n : String) : Bool :=
  fs.existsSync r &&
  (fs.existsSync (pjoin r "skills") && fs.isDir (pjoin r "skills")) &&
  (match fs.readdir (pjoin r "skills") with
   | none => false
   | some items => skillItemHit fs (pjoin r "skills") n items)

/-- No underscore-free entry of `r`'s skills directory loses its `statSync`
(the `try` would abort the scan midway otherwise). -/
def skillRootStatOk (fs : FS) (r : String) : Bool :=
  match fs.readdir (pjoin r "skills") with
  | none => true
  | some items => items.all (fun it =>
      strStartsWith it "_" || (fs.stat (pjoin (pjoin r "skills") it)).isSome)

/-- The canonical location of prompt `n` under prompts directory `d`. -/
def promptLocOf (d n : String) : String := pjoin d (n ++ ".md")

/-- Whether the scan of one prompts directory listing `items` indexes prompt
`n`: `n + ".md"` is listed and is a regular file. -/
def promptItemHit (fs : FS) (promptsDir n : String) (items : List String) : Bool :=
  items.contains (n ++ ".md") &&
    (fs.stat (pjoin promptsDir (n ++ ".md")) = some FKind.file)

/-- Whether prompts directory `d` defines prompt `n`: it exists, lists
`n + ".md"`, and that entry is a regular file. -/
def promptRootDefines (fs : FS) (d n : String) : Bool :=
  fs.existsSync d &&
  (match fs.readdir d with
   | none => false
   | some items => promptItemHit fs d n items)

/-- No `.md` entry of prompts directory `d` loses its `statSync`. -/
def promptRootStatOk (fs : FS) (d : String) : Bool :=
  match fs.readdir d with
  | none => true
  | some items => items.all (fun it =>
      !strEndsWith it ".md" || (fs.stat (pjoin d it)).isSome)

/-- Declared argument names of a prompt document, as `validatePrompt` computes
them. -/
def vpKeys (yload : String → Option YamlVal) (content : String) : List String :=
  (vpDefinedArgs (parseFrontmatter yload content)).map (·.1)

/-- Body placeholder names of a prompt document, as `validatePrompt` computes
them. -/
def vpVars (content : String) : List String :=
  dedupFirst (scanPlaceholders (extractBody content).data)

/-! ## Concrete fixtures used by witnesses and counterexamples -/

/-- Two roots `/A` (higher priority) and `/B`, both defining skill `x` with
different descriptions. -/
def fsAB : FS where
  stat p :=
    if p = "/A" || p = "/B" || p = "/A/skills" || p = "/B/skills" ||
        p = "/A/skills/x" || p = "/B/skills/x" then some .dir
    else if p = "/A/skills/x/SKILL.md" || p = "/B/skills/x/SKILL.md" then some .file
    else none
  readdir p :=
    if p = "/A/skills" || p = "/B/skills" then some ["x"] else none
  readFile p :=
    if p = "/A/skills/x/SKILL.md" then
      some "---\nname: x\ndescription: A description\n---\nA body"
    else if p = "/B/skills/x/SKILL.md" then
      some "---\nname: x\ndescription: B description\n---\nB body"
    else none
  yamlLoad s :=
    if s = "name: x\ndescription: A description" then
      some (.vObj [("name", .vStr "x"), ("description", .vStr "A description")])
    else if s = "name: x\ndescription: B description" then
      some (.vObj [("name", .vStr "x"), ("description", .vStr "B description")])
    else none

/-- One root with skills `a` and `b` whose frontmatter names (`zzz`, `aaa`)
reverse the key order. -/
def fsNames : FS where
  stat p :=
    if p = "/r" || p = "/r/skills" || p = "/r/skills/a" || p = "/r/skills/b" then
      some .dir
    else if p = "/r/skills/a/SKILL.md" || p = "/r/skills/b/SKILL.md" then some .file
    else none
  readdir p := if p = "/r/skills" then some ["a", "b"] else none
  readFile p :=
    if p = "/r/skills/a/SKILL.md" then
      some "---\nname: zzz\ndescription: da\n---\nbody a"
    else if p = "/r/skills/b/SKILL.md" then
      some "---\nname: aaa\ndescription: db\n---\nbody b"
    else none
  yamlLoad s :=
    if s = "name: zzz\ndescription: da" then
      some (.vObj [("name", .vStr "zzz"), ("description", .vStr "da")])
    else if s = "name: aaa\ndescription: db" then
      some (.vObj [("name", .vStr "aaa"), ("description", .vStr "db")])
    else none

/-- A prompts directory whose single indexed prompt cannot be read
(`readFileSync` throws). -/
def fsPReadFail : FS where
  stat p :=
    if p = "/p" then some .dir else if p = "/p/a.md" then some .file else none
  readdir p := if p = "/p" then some ["a.md"] else none
  readFile _ := none
  yamlLoad _ := none

/-- A prompts directory whose single prompt reads fine but has unparseable
frontmatter (every `yaml.load` throws). -/
def fsPParseFail : FS where
  stat p :=
    if p = "/p" then some .dir else if p = "/p/a.md" then some .file else none
  readdir p := if p = "/p" then some ["a.md"] else none
  readFile p := if p = "/p/a.md" then some "---\n:broken\n---\nHello there" else none
  yamlLoad _ := none

/-- A skill `s` whose `scripts/` directory exists but is empty, and which has
no `references/` directory at all. -/
def fsC5 : FS where
  stat p :=
    if p = "/r" || p = "/r/skills" || p = "/r/skills/s" || p = "/r/skills/s/scripts" then
      some .dir
    else if p = "/r/skills/s/SKILL.md" then some .file
    else none
  readdir p :=
    if p = "/r/skills" then some ["s"]
    else if p = "/r/skills/s/scripts" then some []
    else none
  readFile p := if p = "/r/skills/s/SKILL.md" then some "---\nx\n---\n" else none
  yamlLoad _ := none

/-- Two prompts: `p` declares `language` and uses `{{language}} {{code}}`;
`q` declares a malformed `arguments` entry (invalid `type`) and uses `{{x}}`. -/
def fsPrompts : FS where
  stat p :=
    if p = "/p" then some .dir
    else if p = "/p/p.md" || p = "/p/q.md" then some .file
    else none
  readdir p := if p = "/p" then some ["p.md", "q.md"] else none
  readFile p :=
    if p = "/p/p.md" then
      some "---\nargs-p\n---\nReview {{language}} {{code}}"
    else if p = "/p/q.md" then
      some "---\nargs-q\n---\nUse {{x}}"
    else none
  yamlLoad s :=
    if s = "args-p" then
      some (.vObj [("arguments",
        .vObj [("language", .vObj [("description", .vStr "the language")])])])
    else if s = "args-q" then
      some (.vObj [("arguments", .vObj [("x", .vObj [("type", .vStr "integer")])])])
    else none

/-- The YAML environment of the prompt-validation witness: one declared
argument `language`, used nowhere because the body misspells it. -/
def ylC8 (s : String) : Option YamlVal :=
  if s = "args-v" then
    some (.vObj [("arguments",
      .vObj [("language", .vObj [("description", .vStr "d")])])])
  else none

/-- The content of the prompt-validation witness. -/
def contentC8 : String := "---\nargs-v\n---\nUse {{langauge}} here"

/-- A skill whose frontmatter `name` is empty and `description` whitespace. -/
def fsC10 : FS where
  stat p :=
    if p = "/sk/me/SKILL.md" then some .file
    else if p = "/sk/me" || p = "/sk" then some .dir
    else none
  readdir _ := none
  readFile p :=
    if p = "/sk/me/SKILL.md" then some "---\nempty-name\n---\nBody" else none
  yamlLoad s :=
    if s = "empty-name" then
      some (.vObj [("name", .vStr ""), ("description", .vStr " ")])
    else none

/-- A stand-in hex digest for the SHA-256 hash of the cache key. -/
def hashC2 : String → String := fun _ => "abcdef012345"

/-- The substitution map of the idempotence counterexample: the value of the
later entry `b` reintroduces the earlier key `a`'s placeholder. -/
def vC7 : List (String × String) := [("a", "X"), ("b", "{{a}}")]

/-! ## Generic lemmas about the sort and the order -/

theorem mem_insertBy (le : α → α → Bool) (x : α) (l : List α) (a : α) :
    a ∈ insertBy le x l ↔ a = x ∨ a ∈ l := by
  induction l with
  | nil => simp [insertBy]
  | cons y ys ih =>
    simp only [insertBy]
    by_cases h : le x y = true
    · simp [h, List.mem_cons]
    · simp only [if_neg h, List.mem_cons, ih]
      tauto

theorem pairwise_insertBy (le : α → α → Bool)
    (htrans : ∀ a b c, le a b = true → le b c = true → le a c = true)
    (htot : ∀ a b, le a b = true ∨ le b a = true)
    (x : α) (l : List α)
    (h : List.Pairwise (fun a b => le a b = true) l) :
    List.Pairwise (fun a b => le a b = true) (insertBy le x l) := by
  induction l with
  | nil => simp [insertBy]
  | cons y ys ih =>
    rw [List.pairwise_cons] at h
    obtain ⟨hy, hys⟩ := h
    simp only [insertBy]
    by_cases hxy : le x y = true
    · simp only [if_pos hxy]
      refine List.Pairwise.cons ?_ (List.Pairwise.cons hy hys)
      intro b hb
      rcases List.mem_cons.mp hb with rfl | hb
      · exact hxy
      · exact htrans x y b hxy (hy b hb)
    · simp only [if_neg hxy]
      refine List.Pairwise.cons ?_ (ih hys)
      intro b hb
      rcases (mem_insertBy le x ys b).mp hb with heq | hb
      · rcases htot x y with h' | h'
        · exact absurd h' hxy
        · rw [heq]; exact h'
      · exact hy b hb

theorem pairwise_sortBy (le : α → α → Bool)
    (htrans : ∀ a b c, le a b = true → le b c = true → le a c = true)
    (htot : ∀ a b, le a b = true ∨ le b a = true) (l : List α) :
    List.Pairwise (fun a b => le a b = true) (sortBy le l) := by
  induction l with
  | nil => exact List.Pairwise.nil
  | cons x xs ih => exact pairwise_insertBy le htrans htot x (sortBy le xs) ih

theorem length_insertBy (le : α → α → Bool) (x : α) (l : List α) :
    (insertBy le x l).length = l.length + 1 := by
  induction l with
  | nil => rfl
  | cons y ys ih =>
    simp only [insertBy]
    by_cases h : le x y = true
    · simp [h]
    · simp [h, ih]

theorem length_sortBy (le : α → α → Bool) (l : List α) :
    (sortBy le l).length = l.length := by
  induction l with
  | nil => rfl
  | cons x xs ih =>
    simp only [sortBy, List.foldr_cons] at ih ⊢
    rw [length_insertBy, ih, List.length_cons]

theorem charListLe_total (a b : List Char) :
    charListLe a b = true ∨ charListLe b a = true := by
  induction a generalizing b with
  | nil => left; rfl
  | cons x xs ih =>
    cases b with
    | nil => right; rfl
    | cons y ys =>
      simp only [charListLe]
      rcases Nat.lt_trichotomy x.toNat y.toNat with h | h | h
      · left; simp [h]
      · have h1 : ¬x.toNat < y.toNat := by omega
        have h2 : ¬y.toNat < x.toNat := by omega
        simp only [if_neg h1, if_neg h2]
        exact ih ys
      · right; simp [h]

theorem charListLe_trans (a b c : List Char)
    (h1 : charListLe a b = true) (h2 : charListLe b c = true) :
    charListLe a c = true := by
  induction a generalizing b c with
  | nil => rfl
  | cons x xs ih =>
    cases b with
    | nil => simp [charListLe] at h1
    | cons y ys =>
      cases c with
      | nil => simp [charListLe] at h2
      | cons z zs =>
        simp only [charListLe] at h1 h2 ⊢
        rcases Nat.lt_trichotomy x.toNat y.toNat with hxy | hxy | hxy
        · rcases Nat.lt_trichotomy y.toNat z.toNat with hyz | hyz | hyz
          · simp [show x.toNat < z.toNat by omega]
          · simp [show x.toNat < z.toNat by omega]
          · rw [if_neg (by omega), if_pos (by omega)] at h2
            exact absurd h2 (by simp)
        · rcases Nat.lt_trichotomy y.toNat z.toNat with hyz | hyz | hyz
          · simp [show x.toNat < z.toNat by omega]
          · rw [if_neg (by omega), if_neg (by omega)] at h1
            rw [if_neg (by omega), if_neg (by omega)] at h2
            rw [if_neg (by omega), if_neg (by omega)]
            exact ih ys zs h1 h2
          · rw [if_neg (by omega), if_pos (by omega)] at h2
            exact absurd h2 (by simp)
        · rw [if_neg (by omega), if_pos (by omega)] at h1
          exact absurd h1 (by simp)

theorem entryLe_trans (a b c : String × String)
    (h1 : entryLe a b = true) (h2 : entryLe b c = true) : entryLe a c = true :=
  charListLe_trans _ _ _ h1 h2

theorem entryLe_total (a b : String × String) :
    entryLe a b = true ∨ entryLe b a = true :=
  charListLe_total a.1.data b.1.data

/-!
## Claim C2

`cloneOrUpdate` with a null ref: the caller substitutes the literal `"HEAD"`,
and `cloneOrUpdate` both hashes it into the cache key and passes it to
`git checkout`.  The claim that it is "never passed to the version-control
tool" is false; the counterexample shows `"HEAD"` among the checkout refs of
the clone path.
-/

/-- C2 (counterexample): on the clone path with the defaulted ref `"HEAD"`,
the command trace passes `"HEAD"` to `git checkout`. -/
theorem claim2_counterexample :
    "HEAD" ∈ checkoutRefs (cloneOrUpdateCommands hashC2 "/home/u/.skillkit"
      "https://github.com/org/repo.git" "HEAD" false) := by decide

/-- C2 (amended): with the defaulted ref `"HEAD"`, the clone path issues
exactly `git --version`, `git clone url cacheDir` and
`git -C cacheDir checkout HEAD` — the literal `"HEAD"` is used both for the
cache-directory key and as an explicit checkout argument (a checkout of
`HEAD` leaves the working tree at the remote's default branch). -/
theorem claim2_head_checkout (hash : String → String) (home url : String) :
    cloneOrUpdateCommands hash home url "HEAD" false =
      [GitCmd.version, GitCmd.clone url (getCacheDir hash home url "HEAD"),
       GitCmd.checkout (getCacheDir hash home url "HEAD") "HEAD"] ∧
    checkoutRefs (cloneOrUpdateCommands hash home url "HEAD" false) = ["HEAD"] :=
  ⟨rfl, rfl⟩

/-!
## Claim C4

`listAll` sorts by the *index key* (`localeCompare` on the map keys), then
displays the frontmatter `name` when present — so the displayed names need
not be ascending.
-/

/-- C4 (counterexample): two skills with keys `a`, `b` but frontmatter names
`zzz`, `aaa` make `listAll` return names out of ascending order. -/
theorem claim4_counterexample :
    (skillsListAll fsNames ["/r"]).map SkillInfo.name = ["zzz", "aaa"] ∧
    strLe "zzz" "aaa" = false := by decide

/-- C4 (amended): for every manager state, `listAll` (skills and prompts)
returns the entries in ascending order of the directory/file-derived index
key; each returned entry is the rendering of the corresponding sorted index
entry, whose displayed name may differ from the key. -/
theorem claim4_sorted_by_key :
    (∀ (fs : FS) (roots : List String),
      List.Pairwise (fun a b => entryLe a b = true)
        (sortedEntries (discoverSkills fs roots)) ∧
      skillsListAll fs roots =
        (sortedEntries (discoverSkills fs roots)).map (renderSkillEntry fs)) ∧
    (∀ (fs : FS) (dirs : List String),
      List.Pairwise (fun a b => entryLe a b = true)
        (sortedEntries (discoverPrompts fs dirs)) ∧
      promptsListAll fs dirs =
        (sortedEntries (discoverPrompts fs dirs)).filterMap (renderPromptEntry fs dirs)) := by
  constructor
  · intro fs roots
    exact ⟨pairwise_sortBy entryLe entryLe_trans entryLe_total _, rfl⟩
  · intro fs dirs
    exact ⟨pairwise_sortBy entryLe entryLe_trans entryLe_total _, rfl⟩

/-!
## Claim C7

Substitution with the empty map is the identity.  Substituting twice with the
same map equals substituting once *provided* the once-substituted body
contains no `\{\{k\}\}` occurrence for a key `k` of the map; a later entry's
value can reintroduce an earlier key's placeholder, refuting the unconditional
claim.
-/

theorem replaceAllAux_of_not_contains (pat rep : List Char) (fuel : Nat)
    (s : List Char) (h : containsSub pat s = false) :
    replaceAllAux pat rep fuel s = s := by
  induction fuel generalizing s with
  | zero => rfl
  | succ fuel ih =>
    cases s with
    | nil => rfl
    | cons c cs =>
      simp only [containsSub, Bool.or_eq_false_iff] at h
      have hcond : (decide (pat.length > 0) && pat.isPrefixOf (c :: cs)) = false := by
        rw [h.1]; simp
      simp only [replaceAllAux, hcond, Bool.false_eq_true, if_false]
      rw [ih cs h.2]

theorem replaceAll_of_not_contains (pat rep s : List Char)
    (h : containsSub pat s = false) : replaceAll pat rep s = s :=
  replaceAllAux_of_not_contains pat rep s.length s h

/-- C7 (amended): `substitute` with the empty map is the identity, and a
second pass with the same map is the identity whenever the once-substituted
body contains no placeholder of a substituted key. -/
theorem claim7_substitute_idempotent :
    (∀ body : String, substitute body [] = body) ∧
    (∀ (body : String) (args : List (String × String)),
      (∀ kv ∈ args,
        containsSub ("\x7b\x7b" ++ kv.1 ++ "\x7d\x7d").data (substitute body args).data = false) →
      substitute (substitute body args) args = substitute body args) := by
  constructor
  · intro body
    rfl
  · intro body args h
    show String.mk (args.foldl _ (substitute body args).data) = substitute body args
    have key : ∀ (l : List (String × String)) (s : List Char),
        (∀ kv ∈ l, containsSub ("\x7b\x7b" ++ kv.1 ++ "\x7d\x7d").data s = false) →
        l.foldl (fun b kv => replaceAll ("\x7b\x7b" ++ kv.1 ++ "\x7d\x7d").data kv.2.data b) s = s := by
      intro l
      induction l with
      | nil => intro s _; rfl
      | cons kv rest ih =>
        intro s hs
        simp only [List.foldl_cons]
        rw [replaceAll_of_not_contains _ _ _ (hs kv (List.mem_cons_self kv rest))]
        exact ih s (fun kv2 h2 => hs kv2 (List.mem_cons_of_mem kv h2))
    rw [key args (substitute body args).data h]

/-- C7 (witness for the amended theorem). -/
theorem claim7_witness :
    substitute (substitute "Hi {{a}}" [("a", "X")]) [("a", "X")] =
      substitute "Hi {{a}}" [("a", "X")] :=
  claim7_substitute_idempotent.2 "Hi {{a}}" [("a", "X")] (by decide)

/-- C7 (counterexample): with `vC7 = [(a, X), (b, \{\{a\}\})]`, substituting
`\{\{b\}\}` once yields `\{\{a\}\}` but twice yields `X`: the second pass is
not the identity. -/
theorem claim7_counterexample :
    substitute "{{b}}" vC7 = "{{a}}" ∧
    substitute (substitute "{{b}}" vC7) vC7 = "X" ∧
    substitute (substitute "{{b}}" vC7) vC7 ≠ substitute "{{b}}" vC7 :=
  ⟨by decide, by decide, by decide⟩

/-! ## Lemmas about `dedupFirst` and `mergeArgs` -/

theorem mem_of_mem_dedupFirstAux (seen l : List String) (y : String)
    (h : y ∈ dedupFirstAux seen l) : y ∈ l := by
  induction l generalizing seen with
  | nil => simp [dedupFirstAux] at h
  | cons x xs ih =>
    simp only [dedupFirstAux] at h
    by_cases hc : seen.contains x = true
    · rw [if_pos hc] at h
      exact List.mem_cons_of_mem x (ih seen h)
    · rw [if_neg hc] at h
      rcases List.mem_cons.mp h with rfl | h
      · exact List.mem_cons_self _ _
      · exact List.mem_cons_of_mem x (ih (x :: seen) h)

theorem not_seen_of_mem_dedupFirstAux (seen l : List String) (y : String)
    (h : y ∈ dedupFirstAux seen l) : seen.contains y = false := by
  induction l generalizing seen with
  | nil => simp [dedupFirstAux] at h
  | cons x xs ih =>
    simp only [dedupFirstAux] at h
    by_cases hc : seen.contains x = true
    · rw [if_pos hc] at h
      exact ih seen h
    · rw [if_neg hc] at h
      rcases List.mem_cons.mp h with rfl | h
      · exact Bool.eq_false_iff.mpr hc
      · have h2 := ih (x :: seen) h
        simp only [List.contains_cons, Bool.or_eq_false_iff] at h2
        exact h2.2

theorem nodup_dedupFirstAux (seen l : List String) :
    (dedupFirstAux seen l).Nodup := by
  induction l generalizing seen with
  | nil => exact List.nodup_nil
  | cons x xs ih =>
    simp only [dedupFirstAux]
    by_cases hc : seen.contains x = true
    · rw [if_pos hc]; exact ih seen
    · rw [if_neg hc]
      refine List.Nodup.cons ?_ (ih (x :: seen))
      intro hmem
      have := not_seen_of_mem_dedupFirstAux (x :: seen) xs x hmem
      simp [List.contains_cons] at this

theorem nodup_dedupFirst (l : List String) : (dedupFirst l).Nodup :=
  nodup_dedupFirstAux [] l

theorem mem_of_mem_dedupFirst (l : List String) (y : String)
    (h : y ∈ dedupFirst l) : y ∈ l :=
  mem_of_mem_dedupFirstAux [] l y h

theorem mergeArgs_eq (declared : List (String × PromptArgument))
    (vars : List String) (h : vars.Nodup) :
    mergeArgs declared vars =
      declared ++
        (vars.filter (fun v => !declared.any (fun p => p.1 = v))).map
          (fun v => (v, emptyArg)) := by
  induction vars generalizing declared with
  | nil => simp [mergeArgs]
  | cons v vs ih =>
    rw [List.nodup_cons] at h
    obtain ⟨hv, hvs⟩ := h
    show mergeArgs
      (if declared.any (fun p => p.1 = v) then declared else declared ++ [(v, emptyArg)])
      vs = _
    by_cases hd : declared.any (fun p => p.1 = v) = true
    · rw [if_pos hd, ih declared hvs]
      have : (v :: vs).filter (fun u => !declared.any (fun p => p.1 = u)) =
          vs.filter (fun u => !declared.any (fun p => p.1 = u)) := by
        simp [List.filter_cons, hd]
      rw [this]
    · rw [if_neg hd, ih (declared ++ [(v, emptyArg)]) hvs]
      have hfilter : vs.filter
          (fun u => !(declared ++ [(v, emptyArg)]).any (fun p => p.1 = u)) =
          vs.filter (fun u => !declared.any (fun p => p.1 = u)) := by
        apply List.filter_congr
        intro u hu
        have huv : u ≠ v := fun heq => hv (heq ▸ hu)
        simp [List.any_append, huv.symm]
      have hcons : (v :: vs).filter (fun u => !declared.any (fun p => p.1 = u)) =
          v :: vs.filter (fun u => !declared.any (fun p => p.1 = u)) := by
        simp [List.filter_cons, hd]
      rw [hfilter, hcons, List.map_cons, List.append_cons]
      simp

theorem mergeArgs_nil (vars : List String) (h : vars.Nodup) :
    mergeArgs [] vars = vars.map (fun v => (v, emptyArg)) := by
  rw [mergeArgs_eq [] vars h]
  simp

theorem any_key_of_jget_some (es : List (String × YamlVal)) (k : String)
    (v : YamlVal) (h : jget es k = some v) :
    es.any (fun p => p.1 = k) = true := by
  simp only [jget] at h
  cases hfind : es.find? (fun p => p.1 = k) with
  | none => rw [hfind] at h; simp at h
  | some q =>
    have hmem := List.mem_of_find?_eq_some hfind
    have hsat := List.find?_some hfind
    exact List.any_eq_true.mpr ⟨q, hmem, hsat⟩

/-!
## Claim C9

A frontmatter `arguments` entry that fails the schema parse is discarded in
full: `getArguments` returns the empty record and `getMergedArguments` holds
exactly the auto-discovered body placeholders.
-/

/-- C9: a malformed `arguments` declaration (present, truthy, failing
`PromptArgumentsSchema`) yields the empty declared map, and the merged map is
exactly the body placeholders, each with the empty specification. -/
theorem claim9_malformed_arguments (fs : FS) (dirs : List String)
    (name promptPath content : String) (v : YamlVal)
    (hlook : mapLookup (discoverPrompts fs dirs) name = some promptPath)
    (hread : fs.readFile promptPath = some content)
    (harg : jget (parseFrontmatter fs.yamlLoad content) "arguments" = some v)
    (htruthy : jsFalsy v = false)
    (hparse : parsePromptArguments v = none) :
    getArguments fs dirs name = .ok [] ∧
    (∀ body, getBody fs dirs name = .ok body →
      getMergedArguments fs dirs name =
        .ok ((dedupFirst (scanPlaceholders body.data)).map (fun w => (w, emptyArg)))) := by
  have hargs : getArguments fs dirs name = .ok [] := by
    simp only [getArguments, hlook, hread, harg, htruthy, hparse]
    rfl
  refine ⟨hargs, ?_⟩
  intro body hbody
  have hvars : getTemplateVariables fs dirs name =
      .ok (dedupFirst (scanPlaceholders body.data)) := by
    simp only [getTemplateVariables, hbody, Except.map]
  simp only [getMergedArguments, hargs, hvars, bind, Except.bind, pure, Except.pure]
  rw [mergeArgs_nil _ (nodup_dedupFirst _)]

/-- C9 (witness): prompt `q` of the fixture declares `type: integer`, which
the schema rejects; its declared map is empty and its merged map is exactly
`x` from the body. -/
theorem claim9_witness :
    getArguments fsPrompts ["/p"] "q" = .ok [] ∧
    getMergedArguments fsPrompts ["/p"] "q" = .ok [("x", emptyArg)] := by
  have h := claim9_malformed_arguments fsPrompts ["/p"] "q" "/p/q.md"
    "---\nargs-q\n---\nUse {{x}}"
    (.vObj [("x", .vObj [("type", .vStr "integer")])])
    (by decide) (by decide) rfl (by decide) (by decide)
  refine ⟨h.1, ?_⟩
  have h2 := h.2 "Use {{x}}" rfl
  rw [h2]
  rfl

/-!
## Claim C10

`validateSkill` runs the name/description content checks only on nonempty
trimmed values, so present-but-blank `name` and `description` validate.
-/

/-- C10: a SKILL.md whose frontmatter passes the structural gates and carries
`name` and `description` as strings that trim to empty is reported valid. -/
theorem claim10_blank_name_description (fs : FS) (skillPath content : String)
    (block : List Char) (fm : List (String × YamlVal)) (n d : String)
    (hex : fs.existsSync (pjoin skillPath "SKILL.md") = true)
    (hread : fs.readFile (pjoin skillPath "SKILL.md") = some content)
    (hstart : strStartsWith content "---" = true)
    (hfm : fmMatch content.data = some block)
    (hyaml : fs.yamlLoad (String.mk block) = some (.vObj fm))
    (hkeys : (fm.map (·.1)).filter (fun k => !ALLOWED_PROPERTIES.contains k) = [])
    (hname : jget fm "name" = some (.vStr n))
    (hdesc : jget fm "description" = some (.vStr d))
    (htrimn : jsTrim n.data = [])
    (htrimd : jsTrim d.data = []) :
    validateSkill fs skillPath =
      { valid := true, message := "Skill is valid!", errors := none } := by
  have hanyn := any_key_of_jget_some fm "name" _ hname
  have hanyd := any_key_of_jget_some fm "description" _ hdesc
  simp only [validateSkill, hex, Bool.not_true, Bool.false_eq_true, if_false, hread]
  simp only [validateSkillContent, hstart, Bool.not_true, Bool.false_eq_true, if_false,
    hfm, hyaml, hkeys, List.length_nil, gt_iff_lt, lt_self_iff_false, if_false,
    hanyn, hanyd, Bool.not_true, Bool.false_eq_true, if_false,
    List.append_nil, hname, hdesc, htrimn, htrimd]

/-- C10 (witness): the fixture skill with `name: ""` and `description: " "`
validates. -/
theorem claim10_witness :
    validateSkill fsC10 "/sk/me" =
      { valid := true, message := "Skill is valid!", errors := none } :=
  claim10_blank_name_description fsC10 "/sk/me" "---\nempty-name\n---\nBody"
    ("empty-name").data [("name", .vStr ""), ("description", .vStr " ")] "" " "
    (by decide) (by decide) (by decide) (by decide) rfl (by decide)
    rfl rfl (by decide) (by decide)

/-! ## Soundness of the placeholder scanner -/

theorem containsSub_of_isPrefixOf (pat s : List Char)
    (h : pat.isPrefixOf s = true) : containsSub pat s = true := by
  cases s with
  | nil =>
    cases pat with
    | nil => rfl
    | cons p ps => simp [List.isPrefixOf] at h
  | cons c cs => simp [containsSub, h]

theorem containsSub_cons (pat : List Char) (c : Char) (cs : List Char)
    (h : containsSub pat cs = true) : containsSub pat (c :: cs) = true := by
  simp [containsSub, h]

theorem containsSub_append_right (pat s t : List Char)
    (h : containsSub pat t = true) : containsSub pat (s ++ t) = true := by
  induction s with
  | nil => exact h
  | cons c cs ih => exact containsSub_cons pat c (cs ++ t) ih

theorem scanAux_sound (fuel : Nat) (cs : List Char) (k : String)
    (h : k ∈ scanAux fuel cs) :
    containsSub ("\x7b\x7b" ++ k ++ "\x7d\x7d").data cs = true := by
  induction fuel generalizing cs with
  | zero => simp [scanAux] at h
  | succ fuel ih =>
    cases cs with
    | nil => simp [scanAux] at h
    | cons c cs2 =>
      cases cs2 with
      | nil => simp [scanAux] at h
      | cons c2 rest =>
        simp only [scanAux] at h
        by_cases hb : (c = '{' && c2 = '{') = true
        · rw [if_pos hb] at h
          simp only [Bool.and_eq_true, decide_eq_true_eq] at hb
          obtain ⟨rfl, rfl⟩ := hb
          set w := rest.takeWhile isWordChar with hw
          by_cases hcond :
              (w.length > 0 && ("\x7d\x7d".data).isPrefixOf (rest.drop w.length)) = true
          · rw [if_pos hcond] at h
            simp only [Bool.and_eq_true] at hcond
            obtain ⟨t0, ht0⟩ := List.isPrefixOf_iff_prefix.mp hcond.2
            obtain ⟨t1, ht1⟩ := (List.takeWhile_prefix isWordChar : w <+: rest)
            have hdropw : rest.drop w.length = t1 := by
              rw [← ht1, List.drop_left]
            have ht2 : "\x7d\x7d".data ++ t0 = t1 := ht0.trans hdropw
            have hrest : rest = w ++ ("\x7d\x7d".data ++ t0) := by
              rw [ht2, ← ht1, ← hw]
            rcases List.mem_cons.mp h with rfl | h
            · apply containsSub_of_isPrefixOf
              apply List.isPrefixOf_iff_prefix.mpr
              refine ⟨t0, ?_⟩
              have hdata : ("\x7b\x7b" ++ String.mk w ++ "\x7d\x7d").data =
                  '{' :: '{' :: (w ++ "\x7d\x7d".data) := by
                simp [String.data_append]
              rw [hdata, hrest]
              simp
            · have htail : (rest.drop w.length).drop 2 = t0 := by
                rw [hdropw, ← ht2]
                rfl
              have hsub := ih _ h
              rw [htail] at hsub
              have : ('{' :: '{' :: rest : List Char) =
                  ('{' :: '{' :: (w ++ "\x7d\x7d".data)) ++ t0 := by
                rw [hrest]; simp
              rw [this]
              exact containsSub_append_right _ _ _ hsub
          · rw [if_neg hcond] at h
            exact containsSub_cons _ _ _ (ih _ h)
        · rw [if_neg hb] at h
          exact containsSub_cons _ _ _ (ih _ h)

theorem scanPlaceholders_sound (cs : List Char) (k : String)
    (h : k ∈ scanPlaceholders cs) :
    containsSub ("\x7b\x7b" ++ k ++ "\x7d\x7d").data cs = true :=
  scanAux_sound cs.length cs k h

theorem find?_append_left_of_any (p : α → Bool) (l₁ l₂ : List α)
    (h : l₁.any p = true) : (l₁ ++ l₂).find? p = l₁.find? p := by
  induction l₁ with
  | nil => simp at h
  | cons x xs ih =>
    by_cases hx : p x = true
    · simp [List.find?_cons, hx]
    · simp only [List.any_cons, hx, Bool.false_or] at h
      simp [List.find?_cons, hx, ih h]

/-!
## Claim C6

The merged argument specification is exactly the declared arguments followed
by one empty specification per undeclared body placeholder; declared entries
win unchanged, and every key is declared or occurs literally as `\{\{k\}\}`
in the body.
-/

/-- C6: structure of `getMergedArguments`: declared first and unchanged, then
empty specifications for the undeclared placeholders; every key is either
declared or a literal `\{\{k\}\}` occurrence of the body. -/
theorem claim6_merged_arguments (fs : FS) (dirs : List String)
    (name : String) (declared merged : List (String × PromptArgument))
    (vars : List String) (body : String)
    (hdecl : getArguments fs dirs name = .ok declared)
    (hvars : getTemplateVariables fs dirs name = .ok vars)
    (hbody : getBody fs dirs name = .ok body)
    (hmerged : getMergedArguments fs dirs name = .ok merged) :
    merged = declared ++
      (vars.filter (fun v => !declared.any (fun p => p.1 = v))).map
        (fun v => (v, emptyArg)) ∧
    (∀ k, declared.any (fun p => p.1 = k) = true →
      merged.find? (fun p => p.1 = k) = declared.find? (fun p => p.1 = k)) ∧
    (∀ k, merged.any (fun p => p.1 = k) = true →
      declared.any (fun p => p.1 = k) = true ∨
        containsSub ("\x7b\x7b" ++ k ++ "\x7d\x7d").data body.data = true) := by
  have hvars2 : vars = dedupFirst (scanPlaceholders body.data) := by
    simp only [getTemplateVariables, hbody, Except.map] at hvars
    exact (Except.ok.injEq _ _).mp hvars.symm
  have hnodup : vars.Nodup := hvars2 ▸ nodup_dedupFirst _
  have hm : merged = mergeArgs declared vars := by
    simp only [getMergedArguments, hdecl, hvars, bind, Except.bind, pure,
      Except.pure] at hmerged
    exact ((Except.ok.injEq _ _).mp hmerged).symm
  have heq := mergeArgs_eq declared vars hnodup
  refine ⟨hm.trans heq, ?_, ?_⟩
  · intro k hk
    rw [hm, heq]
    exact find?_append_left_of_any _ _ _ hk
  · intro k hk
    rw [hm, heq] at hk
    rw [List.any_append, Bool.or_eq_true] at hk
    rcases hk with hk | hk
    · exact Or.inl hk
    · right
      obtain ⟨q, hqmem, hqk⟩ := List.any_eq_true.mp hk
      obtain ⟨v, hvmem, rfl⟩ := List.mem_map.mp hqmem
      have hvvars : v ∈ vars := List.mem_of_mem_filter hvmem
      have hvscan : v ∈ scanPlaceholders body.data :=
        mem_of_mem_dedupFirst _ v (hvars2 ▸ hvvars)
      simp only [decide_eq_true_eq] at hqk
      rw [← hqk]
      exact scanPlaceholders_sound body.data v hvscan

/-- C6 (witness): prompt `p` of the fixture declares `language` and uses
`\{\{language\}\}` and `\{\{code\}\}`; the merged record is the declared entry
followed by `code` with the empty specification. -/
theorem claim6_witness :
    ([("language", ⟨none, some "the language", none⟩), ("code", emptyArg)] :
        List (String × PromptArgument)) =
      [("language", (⟨none, some "the language", none⟩ : PromptArgument))] ++
        ((["language", "code"].filter (fun v =>
          !([("language", (⟨none, some "the language", none⟩ : PromptArgument))].any
            (fun p => p.1 = v)))).map (fun v => (v, emptyArg))) :=
  (claim6_merged_arguments fsPrompts ["/p"] "p"
    [("language", ⟨none, some "the language", none⟩)]
    [("language", ⟨none, some "the language", none⟩), ("code", emptyArg)]
    ["language", "code"] "Review {{language}} {{code}}"
    rfl rfl rfl rfl).1

/-! ## Message-shape lemmas for `validatePrompt` -/

theorem data_head?_append (s t : String) (c : Char) (h : s.data.head? = some c) :
    (s ++ t).data.head? = some c := by
  rw [String.data_append]
  cases hs : s.data with
  | nil => simp [hs] at h
  | cons a r => rw [hs] at h; simpa using h

theorem unusedArgMsg_head (a : String) : (unusedArgMsg a).data.head? = some 'A' :=
  data_head?_append _ _ _ (data_head?_append _ _ _ (by decide))

theorem undefinedVarMsg_head (keys : List String) (v : String) :
    (undefinedVarMsg keys v).data.head? = some 'U' := by
  unfold undefinedVarMsg
  cases findSimilar v keys with
  | some s =>
    exact data_head?_append _ _ _ (data_head?_append _ _ _
      (data_head?_append _ _ _ (data_head?_append _ _ _ (by decide))))
  | none =>
    exact data_head?_append _ _ _ (data_head?_append _ _ _ (by decide))

theorem typeErrorOf_head (p : String × YamlVal) (e : String)
    (h : typeErrorOf p = some e) : e.data.head? = some 'I' := by
  unfold typeErrorOf at h
  split at h
  · simp at h
  · split at h
    · simp at h
    all_goals
      try obtain ⟨-, h⟩ := h
      try rw [← h]
      exact data_head?_append _ _ _ (data_head?_append _ _ _ (by decide))

theorem validatePromptContent_errors (yload : String → Option YamlVal)
    (content : String) :
    (validatePromptContent yload content).errors =
      (vpDefinedArgs (parseFrontmatter yload content)).filterMap typeErrorOf ++
        undefinedVarErrors (vpVars content) (vpKeys yload content) := rfl

theorem validatePromptContent_warnings (yload : String → Option YamlVal)
    (content : String) :
    (validatePromptContent yload content).warnings =
      (vpDefinedArgs (parseFrontmatter yload content)).filterMap descWarningOf ++
        unusedArgWarnings (vpKeys yload content) (vpVars content) := rfl

/-!
## Claim C8

`validatePrompt` is valid iff its error list is empty; each undeclared body
placeholder yields an error (with a typo suggestion when a declared name is
within edit distance 2); each unreferenced declared argument yields a
warning, never an error.
-/

/-- C8: validity is exactly emptiness of the error list; undeclared
placeholders produce (suggestion-bearing) errors; `findSimilar` returns only
declared names within edit distance 1..2; unused declared arguments produce
warnings and never errors. -/
theorem claim8_validate_prompt :
    (∀ (fs : FS) (path : String),
      (validatePrompt fs path).valid = true ↔ (validatePrompt fs path).errors = []) ∧
    (∀ (yload : String → Option YamlVal) (content : String) (v : String),
      v ∈ vpVars content → (vpKeys yload content).contains v = false →
      undefinedVarMsg (vpKeys yload content) v ∈
        (validatePromptContent yload content).errors) ∧
    (∀ (v : String) (ks : List String) (s : String),
      findSimilar v ks = some s →
      s ∈ ks ∧ 0 < levenshteinDistance v s ∧ levenshteinDistance v s ≤ 2) ∧
    (∀ (v : String) (ks : List String),
      (∃ s ∈ ks, 0 < levenshteinDistance v s ∧ levenshteinDistance v s ≤ 2) →
      ∃ s, findSimilar v ks = some s) ∧
    (∀ (yload : String → Option YamlVal) (content : String) (a : String),
      a ∈ vpKeys yload content → (vpVars content).contains a = false →
      unusedArgMsg a ∈ (validatePromptContent yload content).warnings ∧
      unusedArgMsg a ∉ (validatePromptContent yload content).errors) := by
  refine ⟨?_, ?_, ?_, ?_, ?_⟩
  · intro fs path
    unfold validatePrompt
    by_cases hex : fs.existsSync path = true
    · simp only [hex, Bool.not_true, Bool.false_eq_true, if_false]
      cases hrd : fs.readFile path with
      | none => simp
      | some content =>
        simp only [validatePromptContent]
        simp [List.length_eq_zero]
    · simp only [Bool.not_eq_true] at hex
      simp [hex]
  · intro yload content v hv hcont
    rw [validatePromptContent_errors]
    apply List.mem_append_right
    unfold undefinedVarErrors
    apply List.mem_map.mpr
    refine ⟨v, List.mem_filter.mpr ⟨hv, ?_⟩, rfl⟩
    rw [hcont]
    rfl
  · intro v ks s h
    unfold findSimilar at h
    have hmem := List.mem_of_find?_eq_some h
    have hsat := List.find?_some h
    simp only [Bool.and_eq_true, decide_eq_true_eq] at hsat
    exact ⟨hmem, hsat.2, hsat.1⟩
  · intro v ks h
    obtain ⟨s, hs, h1, h2⟩ := h
    have hsome : (ks.find? (fun c =>
        decide (levenshteinDistance v c ≤ 2) && decide (levenshteinDistance v c > 0))).isSome := by
      rw [List.find?_isSome]
      exact ⟨s, hs, by simp [h1, h2]⟩
    obtain ⟨r, hr⟩ := Option.isSome_iff_exists.mp hsome
    exact ⟨r, hr⟩
  · intro yload content a ha hcont
    constructor
    · rw [validatePromptContent_warnings]
      apply List.mem_append_right
      unfold unusedArgWarnings
      apply List.mem_map.mpr
      refine ⟨a, List.mem_filter.mpr ⟨ha, ?_⟩, rfl⟩
      rw [hcont]
      rfl
    · rw [validatePromptContent_errors]
      intro hmem
      rcases List.mem_append.mp hmem with hmem | hmem
      · obtain ⟨p, _, hp⟩ := List.mem_filterMap.mp hmem
        have h1 := typeErrorOf_head p _ hp
        have h2 := unusedArgMsg_head a
        rw [h1] at h2
        simp at h2
      · obtain ⟨v, _, hv⟩ := List.mem_map.mp hmem
        have h1 := undefinedVarMsg_head (vpKeys yload content) v
        have h2 := unusedArgMsg_head a
        rw [hv, h2] at h1
        simp at h1

/-- C8 (witness): the fixture prompt declares `language` but uses
`\{\{langauge\}\}`: the misspelling produces an error (and `language` is a
valid typo suggestion at distance 2), while the unused declared `language`
produces a warning that is not an error. -/
theorem claim8_witness :
    undefinedVarMsg (vpKeys ylC8 contentC8) "langauge" ∈
      (validatePromptContent ylC8 contentC8).errors ∧
    ("language" ∈ ["language"] ∧ 0 < levenshteinDistance "langauge" "language" ∧
      levenshteinDistance "langauge" "language" ≤ 2) ∧
    (unusedArgMsg "language" ∈ (validatePromptContent ylC8 contentC8).warnings ∧
      unusedArgMsg "language" ∉ (validatePromptContent ylC8 contentC8).errors) :=
  ⟨claim8_validate_prompt.2.1 ylC8 contentC8 "langauge" (by decide) (by decide),
   claim8_validate_prompt.2.2.1 "langauge" ["language"] "language" (by decide),
   claim8_validate_prompt.2.2.2.2 ylC8 contentC8 "language" (by decide) (by decide)⟩

/-!
## Claim C1

Skill listing degrades gracefully and never omits an indexed entry; prompt
listing degrades on *parse* failure but silently omits a prompt whose file
*read* fails (the `catch` skips it).
-/

/-- C1 (counterexample): a prompt that is in the index but whose file read
fails is omitted from `listAll` (the claim says it must appear with fallback
name and empty description). -/
theorem claim1_counterexample :
    discoverPrompts fsPReadFail ["/p"] = [("a", "/p/a.md")] ∧
    promptsListAll fsPReadFail ["/p"] = [] := by decide

/-- C1 (amended): skills: one `listAll` entry per indexed skill, with the
key/placeholder fallback on read failure and key/"No description available"
on parse failure; prompts: parse failure still yields an entry with the stem
name and empty description (concrete instance), but a prompt whose read
fails contributes nothing to `listAll` (and no error is raised — the
functions are total). -/
theorem claim1_graceful_listing :
    (∀ (fs : FS) (roots : List String),
      (skillsListAll fs roots).length = (discoverSkills fs roots).length) ∧
    (∀ (fs : FS) (e : String × String),
      fs.readFile (pjoin e.2 "SKILL.md") = none →
      renderSkillEntry fs e =
        { name := e.1, description := "Unable to read skill description" }) ∧
    (∀ (fs : FS) (e : String × String) (content : String),
      fs.readFile (pjoin e.2 "SKILL.md") = some content →
      parseFrontmatter fs.yamlLoad content = [] →
      renderSkillEntry fs e =
        { name := e.1, description := "No description available" }) ∧
    promptsListAll fsPParseFail ["/p"] =
      [{ name := "a", description := "", arguments := none }] ∧
    (∀ (fs : FS) (dirs : List String) (e : String × String),
      fs.readFile e.2 = none → renderPromptEntry fs dirs e = none) := by
  refine ⟨?_, ?_, ?_, by decide, ?_⟩
  · intro fs roots
    show ((sortedEntries (discoverSkills fs roots)).map (renderSkillEntry fs)).length = _
    rw [List.length_map]
    exact length_sortBy entryLe _
  · intro fs e h
    unfold renderSkillEntry
    rw [h]
  · intro fs e content hread hfm
    unfold renderSkillEntry
    rw [hread]
    show ({ name := nullishStr (jget (parseFrontmatter fs.yamlLoad content) "name") e.1,
            description := nullishStr
              (jget (parseFrontmatter fs.yamlLoad content) "description")
              "No description available" } : SkillInfo) = _
    rw [hfm]
    rfl
  · intro fs dirs e h
    unfold renderPromptEntry
    rw [h]

/-- C1 (witness for the amended theorem). -/
theorem claim1_witness :
    renderPromptEntry fsPReadFail ["/p"] ("a", "/p/a.md") = none :=
  claim1_graceful_listing.2.2.2.2 fsPReadFail ["/p"] ("a", "/p/a.md") rfl

/-!
## Claim C5

`getScript`/`getReference` with a missing filename: the enumeration message
appears only when the subdirectory exists *and* contains at least one regular
file; when the subdirectory is missing — but also when it exists empty or
cannot be listed — the code produces the `No ... directory exists` message.
A counterexample shows an existing empty `scripts/` directory yielding the
"missing directory" message.
-/

/-- C5 (counterexample): the fixture's `scripts/` directory exists (and is a
directory), yet the error for a missing filename claims no scripts directory
exists and carries no file list. -/
theorem claim5_counterexample :
    fsC5.existsSync "/r/skills/s/scripts" = true ∧
    fsC5.isDir "/r/skills/s/scripts" = true ∧
    getScript fsC5 ["/r"] "s" "x.py" =
      .error "Script 'x.py' not found in skill 's'. No scripts directory exists for this skill." :=
  ⟨by decide, by decide, rfl⟩

/-- C5 (amended): with the skill found and the file missing, the result is
always `NotFound`; the message enumerates the sibling files exactly when the
subdirectory exists and holds at least one regular file; when the
subdirectory is missing — or exists but holds no regular files, or cannot be
listed — the distinct `No ... directory exists` message (without a file
list) is produced.  `getScript`/`getReference` are the two instances of
`getFromSubdir`. -/
theorem claim5_subdir_errors :
    (∀ (fs : FS) (roots : List String) (skill filename : String),
      getScript fs roots skill filename =
        getFromSubdir fs roots "scripts" "Script" "scripts" skill filename ∧
      getReference fs roots skill filename =
        getFromSubdir fs roots "references" "Reference" "references" skill filename) ∧
    (∀ (fs : FS) (roots : List String) (sub what wp skill filename skillPath : String),
      mapLookup (discoverSkills fs roots) skill = some skillPath →
      fs.existsSync (pjoin (pjoin skillPath sub) filename) = false →
      ((fs.existsSync (pjoin skillPath sub) && fs.isDir (pjoin skillPath sub)) = false →
        getFromSubdir fs roots sub what wp skill filename =
          .error (subdirMissingMsg what wp skill filename)) ∧
      (∀ files,
        fs.existsSync (pjoin skillPath sub) = true →
        fs.isDir (pjoin skillPath sub) = true →
        fs.readdir (pjoin skillPath sub) = some files →
        (files.filter (fun f => fs.existsSync (pjoin (pjoin skillPath sub) f) &&
            fs.isFile (pjoin (pjoin skillPath sub) f))).length > 0 →
        getFromSubdir fs roots sub what wp skill filename =
          .error (subdirEnumMsg what wp skill filename
            (files.filter (fun f => fs.existsSync (pjoin (pjoin skillPath sub) f) &&
              fs.isFile (pjoin (pjoin skillPath sub) f))))) ∧
      (∀ files,
        fs.existsSync (pjoin skillPath sub) = true →
        fs.isDir (pjoin skillPath sub) = true →
        fs.readdir (pjoin skillPath sub) = some files →
        (files.filter (fun f => fs.existsSync (pjoin (pjoin skillPath sub) f) &&
            fs.isFile (pjoin (pjoin skillPath sub) f))).length = 0 →
        getFromSubdir fs roots sub what wp skill filename =
          .error (subdirMissingMsg what wp skill filename)) ∧
      (fs.readdir (pjoin skillPath sub) = none →
        getFromSubdir fs roots sub what wp skill filename =
          .error (subdirMissingMsg what wp skill filename))) := by
  refine ⟨fun fs roots skill filename => ⟨rfl, rfl⟩, ?_⟩
  intro fs roots sub what wp skill filename skillPath hlook hfile
  refine ⟨?_, ?_, ?_, ?_⟩
  · intro hdir
    simp only [getFromSubdir, hlook, hfile, Bool.false_eq_true, if_false, hdir]
  · intro files hex hdir hrd hlen
    simp only [getFromSubdir, hlook, hfile, Bool.false_eq_true, if_false, hex, hdir,
      Bool.and_self, if_true, hrd, hlen, gt_iff_lt, decide_eq_true_eq, if_pos]
  · intro files hex hdir hrd hlen
    simp only [getFromSubdir, hlook, hfile, Bool.false_eq_true, if_false, hex, hdir,
      Bool.and_self, if_true, hrd, hlen, gt_iff_lt, lt_self_iff_false,
      decide_eq_true_eq, if_false]
  · intro hrd
    by_cases hdir : (fs.existsSync (pjoin skillPath sub) && fs.isDir (pjoin skillPath sub)) = true
    · simp only [getFromSubdir, hlook, hfile, Bool.false_eq_true, if_false, hdir,
        if_true, hrd]
    · simp only [Bool.not_eq_true] at hdir
      simp only [getFromSubdir, hlook, hfile, Bool.false_eq_true, if_false, hdir]

/-- C5 (witness for the amended theorem): the fixture's existing empty
`scripts/` directory produces the missing-directory message. -/
theorem claim5_witness :
    getFromSubdir fsC5 ["/r"] "scripts" "Script" "scripts" "s" "x.py" =
      .error (subdirMissingMsg "Script" "scripts" "s" "x.py") :=
  (claim5_subdir_errors.2 fsC5 ["/r"] "scripts" "Script" "scripts" "s" "x.py"
    "/r/skills/s" rfl (by decide)).2.2.1 [] (by decide) (by decide) rfl (by decide)

/-! ## Lookup lemmas for the insertion-ordered map -/

theorem mapLookup_map_replace_eq (m : List (String × String)) (k v : String)
    (h : m.any (fun p => p.1 = k) = true) :
    mapLookup (m.map (fun p => if p.1 = k then (k, v) else p)) k = some v := by
  induction m with
  | nil => simp at h
  | cons q qs ih =>
    simp only [List.map_cons]
    by_cases hq : q.1 = k
    · rw [if_pos hq]
      unfold mapLookup
      rw [List.find?_cons_of_pos _ (by simp)]
      rfl
    · rw [if_neg hq]
      simp only [List.any_cons, Bool.or_eq_true] at h
      rcases h with h | h
      · exact absurd (by simpa using h) hq
      · unfold mapLookup
        rw [List.find?_cons_of_neg _ (by simpa using hq)]
        exact ih h

theorem mapLookup_map_replace_ne (m : List (String × String)) (k v n : String)
    (h : n ≠ k) :
    mapLookup (m.map (fun p => if p.1 = k then (k, v) else p)) n = mapLookup m n := by
  induction m with
  | nil => rfl
  | cons q qs ih =>
    simp only [List.map_cons]
    by_cases hq : q.1 = k
    · rw [if_pos hq]
      unfold mapLookup
      rw [List.find?_cons_of_neg _
          (by simp only [decide_eq_true_eq]; exact fun he => h he.symm),
        List.find?_cons_of_neg _
          (by simp only [decide_eq_true_eq]; exact fun he => h (hq ▸ he).symm)]
      exact ih
    · rw [if_neg hq]
      unfold mapLookup
      by_cases hqn : q.1 = n
      · rw [List.find?_cons_of_pos _ (by simpa using hqn),
          List.find?_cons_of_pos _ (by simpa using hqn)]
      · rw [List.find?_cons_of_neg _ (by simpa using hqn),
          List.find?_cons_of_neg _ (by simpa using hqn)]
        exact ih

theorem mapLookup_append_ne (m : List (String × String)) (k v n : String)
    (h : n ≠ k) :
    mapLookup (m ++ [(k, v)]) n = mapLookup m n := by
  induction m with
  | nil =>
    unfold mapLookup
    rw [List.nil_append, List.find?_cons_of_neg _
        (by simp only [decide_eq_true_eq]; exact fun he => h he.symm)]
  | cons q qs ih =>
    unfold mapLookup
    rw [List.cons_append]
    by_cases hqn : q.1 = n
    · rw [List.find?_cons_of_pos _ (by simpa using hqn),
        List.find?_cons_of_pos _ (by simpa using hqn)]
    · rw [List.find?_cons_of_neg _ (by simpa using hqn),
        List.find?_cons_of_neg _ (by simpa using hqn)]
      exact ih

theorem mapLookup_append_self (m : List (String × String)) (k v : String)
    (h : m.any (fun p => p.1 = k) = false) :
    mapLookup (m ++ [(k, v)]) k = some v := by
  induction m with
  | nil =>
    unfold mapLookup
    rw [List.nil_append, List.find?_cons_of_pos _ (by simp)]
    rfl
  | cons q qs ih =>
    simp only [List.any_cons, Bool.or_eq_false_iff] at h
    unfold mapLookup
    rw [List.cons_append, List.find?_cons_of_neg _ (by simp [h.1])]
    exact ih h.2

theorem mapLookup_mapSet (m : List (String × String)) (k v n : String) :
    mapLookup (mapSet m k v) n = if n = k then some v else mapLookup m n := by
  unfold mapSet
  by_cases hany : m.any (fun p => p.1 = k) = true
  · rw [if_pos hany]
    by_cases hn : n = k
    · rw [if_pos hn, hn]
      exact mapLookup_map_replace_eq m k v hany
    · rw [if_neg hn]
      exact mapLookup_map_replace_ne m k v n hn
  · rw [if_neg hany]
    by_cases hn : n = k
    · rw [if_pos hn, hn]
      exact mapLookup_append_self m k v (Bool.eq_false_iff.mpr hany)
    · rw [if_neg hn]
      exact mapLookup_append_ne m k v n hn

theorem processSkillItems_lookup (fs : FS) (skillsDir : String) (items : List String)
    (m : List (String × String)) (n : String)
    (hok : items.all (fun it =>
      strStartsWith it "_" || (fs.stat (pjoin skillsDir it)).isSome) = true) :
    mapLookup (processSkillItems fs skillsDir m items) n =
      if skillItemHit fs skillsDir n items = true then some (pjoin skillsDir n)
      else mapLookup m n := by
  induction items generalizing m with
  | nil => simp [processSkillItems, skillItemHit]
  | cons it rest ih =>
    simp only [List.all_cons, Bool.and_eq_true] at hok
    obtain ⟨hok1, hok2⟩ := hok
    by_cases hsw : strStartsWith it "_" = true
    · have hstep : processSkillItems fs skillsDir m (it :: rest) =
          processSkillItems fs skillsDir m rest := by
        simp [processSkillItems, hsw]
      rw [hstep, ih m hok2]
      have hhit : skillItemHit fs skillsDir n (it :: rest) =
          skillItemHit fs skillsDir n rest := by
        by_cases hn : it = n
        · rw [hn] at hsw
          simp [skillItemHit, hsw]
        · have hn2 : ¬(n = it) := fun he => hn he.symm
          simp [skillItemHit, List.contains_cons, hn2]
      rw [hhit]
    · simp only [Bool.not_eq_true] at hsw
      cases hstat : fs.stat (pjoin skillsDir it) with
      | none =>
        rw [hsw, hstat] at hok1
        simp at hok1
      | some fk =>
        cases fk with
        | dir =>
          by_cases hskill : fs.existsSync (pjoin (pjoin skillsDir it) "SKILL.md") = true
          · have hstep : processSkillItems fs skillsDir m (it :: rest) =
                processSkillItems fs skillsDir
                  (mapSet m it (pjoin skillsDir it)) rest := by
              simp [processSkillItems, hsw, hstat, hskill]
            rw [hstep, ih _ hok2, mapLookup_mapSet]
            by_cases hn : it = n
            · rw [hn] at hsw hstat hskill
              have hhitc : skillItemHit fs skillsDir n (it :: rest) = true := by
                simp [skillItemHit, List.contains_cons, hsw, hstat, hskill, hn]
              rw [if_pos hhitc, hn]
              by_cases hr : skillItemHit fs skillsDir n rest = true
              · rw [if_pos hr]
              · rw [if_neg hr, if_pos rfl]
            · have hn2 : ¬(n = it) := fun he => hn he.symm
              have hhit : skillItemHit fs skillsDir n (it :: rest) =
                  skillItemHit fs skillsDir n rest := by
                simp [skillItemHit, List.contains_cons, hn2]
              rw [if_neg hn2, hhit]
          · simp only [Bool.not_eq_true] at hskill
            have hstep : processSkillItems fs skillsDir m (it :: rest) =
                processSkillItems fs skillsDir m rest := by
              simp [processSkillItems, hsw, hstat, hskill]
            rw [hstep, ih m hok2]
            have hhit : skillItemHit fs skillsDir n (it :: rest) =
                skillItemHit fs skillsDir n rest := by
              by_cases hn : it = n
              · rw [hn] at hskill
                simp [skillItemHit, hskill]
              · have hn2 : ¬(n = it) := fun he => hn he.symm
                simp [skillItemHit, List.contains_cons, hn2]
            rw [hhit]
        | file =>
          have hstep : processSkillItems fs skillsDir m (it :: rest) =
              processSkillItems fs skillsDir m rest := by
            simp [processSkillItems, hsw, hstat]
          rw [hstep, ih m hok2]
          have hhit : skillItemHit fs skillsDir n (it :: rest) =
              skillItemHit fs skillsDir n rest := by
            by_cases hn : it = n
            · rw [hn] at hstat
              simp [skillItemHit, hstat]
            · have hn2 : ¬(n = it) := fun he => hn he.symm
              simp [skillItemHit, List.contains_cons, hn2]
          rw [hhit]

theorem string_data_inj {a b : String} (h : a.data = b.data) : a = b :=
  congrArg String.mk h

theorem stemOf_append_md (n : String) : stemOf (n ++ ".md") = n := by
  unfold stemOf
  rw [String.data_append]
  have hl : (n.data ++ (".md").data).length - 3 = n.data.length := by simp
  rw [hl, List.take_left]

theorem strEndsWith_append_md (n : String) : strEndsWith (n ++ ".md") ".md" = true := by
  unfold strEndsWith
  rw [String.data_append]
  exact List.isSuffixOf_iff_suffix.mpr (List.suffix_append n.data (".md").data)

theorem stemOf_eq_iff (it n : String) (h : strEndsWith it ".md" = true) :
    stemOf it = n ↔ it = n ++ ".md" := by
  constructor
  · intro he
    unfold strEndsWith at h
    obtain ⟨front, hfront⟩ := List.isSuffixOf_iff_suffix.mp h
    have hit : it = String.mk front ++ ".md" := by
      apply string_data_inj
      rw [String.data_append]
      exact hfront.symm
    rw [hit, stemOf_append_md] at he
    rw [hit, he]
  · intro he
    rw [he, stemOf_append_md]

theorem processSkillRoot_lookup (fs : FS) (m : List (String × String)) (r n : String)
    (hok : skillRootStatOk fs r = true) :
    mapLookup (processSkillRoot fs m r) n =
      if skillRootDefines fs r n = true then some (skillLocOf r n)
      else mapLookup m n := by
  unfold processSkillRoot skillRootDefines skillLocOf
  by_cases hex : fs.existsSync r = true
  · by_cases hd : (fs.existsSync (pjoin r "skills") && fs.isDir (pjoin r "skills")) = true
    · cases hrd : fs.readdir (pjoin r "skills") with
      | none => simp [hex, hd, hrd]
      | some items =>
        unfold skillRootStatOk at hok
        rw [hrd] at hok
        simp only [hex, hd, hrd, if_true]
        rw [processSkillItems_lookup fs _ items m n hok]
        simp [hex, hd]
    · simp [hex, hd]
  · simp [hex]

theorem discoverSkills_cons (fs : FS) (r : String) (rs : List String) :
    discoverSkills fs (r :: rs) = processSkillRoot fs (discoverSkills fs rs) r := by
  unfold discoverSkills
  rw [List.reverse_cons, List.foldl_append]
  rfl

theorem discoverSkills_lookup (fs : FS) (roots : List String) (n : String)
    (hok : roots.all (skillRootStatOk fs) = true) :
    mapLookup (discoverSkills fs roots) n =
      (roots.find? (fun r => skillRootDefines fs r n)).map (fun r => skillLocOf r n) := by
  induction roots with
  | nil => rfl
  | cons r rs ih =>
    simp only [List.all_cons, Bool.and_eq_true] at hok
    rw [discoverSkills_cons, processSkillRoot_lookup fs _ r n hok.1]
    by_cases hd : skillRootDefines fs r n = true
    · rw [if_pos hd,
        List.find?_cons_of_pos (p := fun r => skillRootDefines fs r n) rs hd]
      rfl
    · rw [if_neg hd,
        List.find?_cons_of_neg (p := fun r => skillRootDefines fs r n) rs (by simp [hd]),
        ih hok.2]

theorem processPromptItems_lookup (fs : FS) (promptsDir : String)
    (items : List String) (m : List (String × String)) (n : String)
    (hok : items.all (fun it =>
      !strEndsWith it ".md" || (fs.stat (pjoin promptsDir it)).isSome) = true) :
    mapLookup (processPromptItems fs promptsDir m items) n =
      if promptItemHit fs promptsDir n items = true
      then some (pjoin promptsDir (n ++ ".md")) else mapLookup m n := by
  induction items generalizing m with
  | nil => simp [processPromptItems, promptItemHit]
  | cons it rest ih =>
    simp only [List.all_cons, Bool.and_eq_true] at hok
    obtain ⟨hok1, hok2⟩ := hok
    by_cases hmd : strEndsWith it ".md" = true
    · cases hstat : fs.stat (pjoin promptsDir it) with
      | none =>
        rw [hmd, hstat] at hok1
        simp at hok1
      | some fk =>
        cases fk with
        | file =>
          have hstep : processPromptItems fs promptsDir m (it :: rest) =
              processPromptItems fs promptsDir
                (mapSet m (stemOf it) (pjoin promptsDir it)) rest := by
            simp [processPromptItems, hmd, hstat]
          rw [hstep, ih _ hok2, mapLookup_mapSet]
          by_cases hit2 : it = n ++ ".md"
          · have hstem : stemOf it = n := (stemOf_eq_iff it n hmd).mpr hit2
            have hstat2 : fs.stat (pjoin promptsDir (n ++ ".md")) = some FKind.file := by
              rw [← hit2]; exact hstat
            have hhitc : promptItemHit fs promptsDir n (it :: rest) = true := by
              simp [promptItemHit, List.contains_cons, hit2, hstat2]
            rw [if_pos hhitc]
            by_cases hr : promptItemHit fs promptsDir n rest = true
            · rw [if_pos hr]
            · rw [if_neg hr, if_pos hstem.symm, hit2]
          · have hstem : ¬(stemOf it = n) :=
              fun he => hit2 ((stemOf_eq_iff it n hmd).mp he)
            have hn2 : ¬(n = stemOf it) := fun he => hstem he.symm
            have hc : ¬(n ++ ".md" = it) := fun he => hit2 he.symm
            have hhit : promptItemHit fs promptsDir n (it :: rest) =
                promptItemHit fs promptsDir n rest := by
              simp [promptItemHit, List.contains_cons, hc]
            rw [if_neg hn2, hhit]
        | dir =>
          have hstep : processPromptItems fs promptsDir m (it :: rest) =
              processPromptItems fs promptsDir m rest := by
            simp [processPromptItems, hmd, hstat]
          rw [hstep, ih m hok2]
          have hhit : promptItemHit fs promptsDir n (it :: rest) =
              promptItemHit fs promptsDir n rest := by
            by_cases hit2 : it = n ++ ".md"
            · rw [hit2] at hstat
              simp [promptItemHit, hstat]
            · have hc : ¬(n ++ ".md" = it) := fun he => hit2 he.symm
              simp [promptItemHit, List.contains_cons, hc]
          rw [hhit]
    · have hstep : processPromptItems fs promptsDir m (it :: rest) =
          processPromptItems fs promptsDir m rest := by
        simp [processPromptItems, hmd]
      rw [hstep, ih m hok2]
      have hc : ¬(n ++ ".md" = it) := by
        intro he
        rw [← he] at hmd
        exact hmd (strEndsWith_append_md n)
      have hhit : promptItemHit fs promptsDir n (it :: rest) =
          promptItemHit fs promptsDir n rest := by
        simp [promptItemHit, List.contains_cons, hc]
      rw [hhit]

theorem processPromptRoot_lookup (fs : FS) (m : List (String × String))
    (d n : String) (hok : promptRootStatOk fs d = true) :
    mapLookup (processPromptRoot fs m d) n =
      if promptRootDefines fs d n = true then some (promptLocOf d n)
      else mapLookup m n := by
  unfold processPromptRoot promptRootDefines promptLocOf
  by_cases hex : fs.existsSync d = true
  · cases hrd : fs.readdir d with
    | none => simp [hex, hrd]
    | some items =>
      unfold promptRootStatOk at hok
      rw [hrd] at hok
      simp only [hex, hrd, if_true]
      rw [processPromptItems_lookup fs d items m n hok]
      simp [hex]
  · simp [hex]

theorem discoverPrompts_cons (fs : FS) (d : String) (ds : List String) :
    discoverPrompts fs (d :: ds) = processPromptRoot fs (discoverPrompts fs ds) d := by
  unfold discoverPrompts
  rw [List.reverse_cons, List.foldl_append]
  rfl

theorem discoverPrompts_lookup (fs : FS) (dirs : List String) (n : String)
    (hok : dirs.all (promptRootStatOk fs) = true) :
    mapLookup (discoverPrompts fs dirs) n =
      (dirs.find? (fun d => promptRootDefines fs d n)).map (fun d => promptLocOf d n) := by
  induction dirs with
  | nil => rfl
  | cons d ds ih =>
    simp only [List.all_cons, Bool.and_eq_true] at hok
    rw [discoverPrompts_cons, processPromptRoot_lookup fs _ d n hok.1]
    by_cases hd : promptRootDefines fs d n = true
    · rw [if_pos hd,
        List.find?_cons_of_pos (p := fun d => promptRootDefines fs d n) ds hd]
      rfl
    · rw [if_neg hd,
        List.find?_cons_of_neg (p := fun d => promptRootDefines fs d n) ds (by simp [hd]),
        ih hok.2]

/-!
## Claim C3

Winner-take-all shadowing: the index maps each name to the location under the
first (highest-priority) root that defines it, for skills and prompts alike;
concretely, with roots `[/A, /B]` both defining skill `x`, `listAll` reports
only A's description.
-/

/-- C3: the skill and prompt indexes resolve every name to the location in
the first root of the list that defines it (winner-take-all, no merging), and
the two-root fixture shows `listAll` reporting only the higher-priority
description.  The `statOk` hypotheses rule out listings aborted midway by a
throwing `statSync`. -/
theorem claim3_shadowing :
    (∀ (fs : FS) (roots : List String) (n : String),
      roots.all (skillRootStatOk fs) = true →
      mapLookup (discoverSkills fs roots) n =
        (roots.find? (fun r => skillRootDefines fs r n)).map (fun r => skillLocOf r n)) ∧
    (∀ (fs : FS) (dirs : List String) (n : String),
      dirs.all (promptRootStatOk fs) = true →
      mapLookup (discoverPrompts fs dirs) n =
        (dirs.find? (fun d => promptRootDefines fs d n)).map (fun d => promptLocOf d n)) ∧
    skillsListAll fsAB ["/A", "/B"] =
      [{ name := "x", description := "A description" }] :=
  ⟨fun fs roots n hok => discoverSkills_lookup fs roots n hok,
   fun fs dirs n hok => discoverPrompts_lookup fs dirs n hok,
   by decide⟩

/-- C3 (witness): in the two-root fixture, skill `x` resolves to `/A`'s copy. -/
theorem claim3_witness :
    mapLookup (discoverSkills fsAB ["/A", "/B"]) "x" =
      ((["/A", "/B"].find? (fun r => skillRootDefines fsAB r "x")).map
        (fun r => skillLocOf r "x")) :=
  claim3_shadowing.1 fsAB ["/A", "/B"] "x" (by decide)

end DevSkills
